import Mathlib

/-!
# Live-reload broker of `superhot` (serve.go / server.go)

A shallow embedding of the broker that both `src/serve.go` and `src/server.go`
define identically: the `connection` and `broker` types, `handleConnection`,
`removeConnection`, `sendReload` and `handleReloadReq`. Line numbers are those of
`src/serve.go`.

The methods are embedded twice. First as functions from world to outcome, one call
at a time (`handleConnection`, `removeConnection`, `sendReload`), with the events
subscribe, cancel and broadcast as a transition system (`Server`). Then statement by
statement (`Goroutine.step`), with any number of goroutines interleaved (`Sys`).
The theorems `subscribe_alone`, `cancel_alone` and `sendReload_alone` say that a
goroutine that runs without interference does what the function says.

* A response writer is a reference (a number) together with the fact whether
  its dynamic type implements `http.Flusher`.  What the handlers do to a writer
  is recorded: the header map per writer, and one global trace of the calls
  `Write`, `Flush` and `http.Error` in the order in which they are made.
* `map[string]*connection` is a finite map with unique keys (`AList`); the order
  in which `range` visits it is a parameter of `sendReload`, any permutation of
  the entries.
* Whether a `Write` returns an error is decided by the environment: `sendReload`
  takes it as a parameter, one answer for each key it visits.
* `sync.RWMutex` is explicit state: the number of readers holding the lock and
  whether a writer holds it. `Lock` and `RLock` return an option: `none` means that
  the call cannot proceed in that state and the goroutine is parked. `Lock`
  proceeds only when nobody holds the lock, `RLock` whenever no writer holds it.
  (Go also makes `RLock` wait while a `Lock` call is pending; the model allows
  every acquisition Go allows. Theorems that say that a call returns assume that
  nobody holds the lock, where a pending `Lock` call cannot exist.)
-/

namespace Superhot

/-! ## Data model -/

/-- Value `http.StatusInternalServerError` of net/http. -/
def StatusInternalServerError : Nat := 500

/-- One call made on a response writer. `Write p err` is a call `Write(p)`, with
`err` saying whether it returned a non-nil error; `Error` is `http.Error`. -/
inductive Call where
  | Write (p : List Nat) (err : Bool)
  | Flush
  | Error (error : String) (code : Nat)
  deriving DecidableEq, Repr

/-- An `http.ResponseWriter` value: the reference `id`, and whether the type
assertion `rw.(http.Flusher)` succeeds on it. -/
structure ResponseWriter where
  id : Nat
  isFlusher : Bool
  deriving DecidableEq, Repr

/-- The part of `*http.Request` the broker reads. -/
structure Request where
  RemoteAddr : String
  deriving DecidableEq, Repr

/-- The struct `connection`: references to the writer and to the flusher. -/
structure connection where
  writer : Nat
  flusher : Nat
  deriving DecidableEq, Repr

/-- State of a `sync.RWMutex`. -/
structure RWMutex where
  readers : Nat
  writer : Bool
  deriving DecidableEq, Repr

/-- The type `map[string]*connection`. -/
abbrev ConnMap := AList (fun _ : String => connection)

/-- One entry of the map: a key and the connection stored under it. -/
abbrev Entry := Sigma fun _ : String => connection

/-- The struct `broker`. -/
structure broker where
  connections : ConnMap
  connectionsMutex : RWMutex

/-- The broker together with the response writers it talks to: for every writer the
header map as the broker's own `Header().Set` calls leave it, and the trace of the
calls `Write`, `Flush` and `http.Error` made on the writers. What net/http does
inside those calls is not modelled. -/
structure World where
  b : broker
  header : Nat → String → List String
  trace : List (Nat × Call)

/-- How far a call got. -/
inductive Outcome where
  /-- the function returned -/
  | returned (w : World)
  /-- the goroutine waits at `<-req.Context().Done()` -/
  | suspended (w : World)
  /-- the goroutine is parked inside `Lock()` or `RLock()` -/
  | blocked (w : World)

/-- The state in which a call left the world. -/
def Outcome.world : Outcome → World
  | .returned w => w
  | .suspended w => w
  | .blocked w => w

/-- Whether the call returned. -/
def Outcome.isReturned : Outcome → Bool
  | .returned _ => true
  | _ => false

/-- Whether the call is parked inside a lock operation. -/
def Outcome.isBlocked : Outcome → Bool
  | .blocked _ => true
  | _ => false

/-! ## sync.RWMutex -/

/-- A mutex nobody holds (the zero value). -/
def RWMutex.unlocked : RWMutex := { readers := 0, writer := false }

/-- Call `RLock()`: proceeds unless a writer holds the lock. -/
def RWMutex.RLock (m : RWMutex) : Option RWMutex :=
  if m.writer = false then some { m with readers := m.readers + 1 } else none

/-- Call `RUnlock()`. -/
def RWMutex.RUnlock (m : RWMutex) : RWMutex :=
  { m with readers := m.readers - 1 }

/-- Call `Lock()`: proceeds only when no reader and no writer holds the lock. -/
def RWMutex.Lock (m : RWMutex) : Option RWMutex :=
  if m.readers = 0 ∧ m.writer = false then some { m with writer := true } else none

/-- Call `Unlock()`. -/
def RWMutex.Unlock (m : RWMutex) : RWMutex :=
  { m with writer := false }

/-! ## Effects on the world -/

/-- Replace the mutex state. -/
def World.setMutex (w : World) (m : RWMutex) : World :=
  { w with b := { w.b with connectionsMutex := m } }

/-- Replace the map. -/
def World.setConnections (w : World) (c : ConnMap) : World :=
  { w with b := { w.b with connections := c } }

/-- Record a call on writer `id`. -/
def World.call (w : World) (id : Nat) (c : Call) : World :=
  { w with trace := w.trace ++ [(id, c)] }

/-- The call `rw.Header().Set(key, value)`: the entry of `key` becomes the single
value. (`Set` canonicalises the key; the four keys the broker sets are canonical.) -/
def World.headerSet (w : World) (id : Nat) (key value : String) : World :=
  { w with header := Function.update w.header id (Function.update (w.header id) key [value]) }

/-- The calls that a trace records on writer `id`, oldest first. -/
def callsIn (t : List (Nat × Call)) (id : Nat) : List Call :=
  (t.filter (fun e => e.1 = id)).map Prod.snd

/-- The calls recorded on writer `id`, oldest first. -/
def World.callsOn (w : World) (id : Nat) : List Call :=
  callsIn w.trace id

/-- The bytes of `[]byte("data: reload\n\n")`; the text is ASCII, so every byte is
the code point of its character. -/
def msgBytes : List Nat := "data: reload\n\n".toList.map Char.toNat

/-- The bytes of an ASCII text. -/
def asciiBytes (s : String) : List Nat := s.toList.map Char.toNat

/-! ## The broker's methods -/

/-- The method `removeConnection` (serve.go 51-55): `Lock`, `delete`, `Unlock`. -/
def removeConnection (key : String) (w : World) : Outcome :=
  match w.b.connectionsMutex.Lock with
  | none => .blocked w
  | some m =>
    let w1 := w.setMutex m
    let w2 := w1.setConnections (w1.b.connections.erase key)
    .returned (w2.setMutex w2.b.connectionsMutex.Unlock)

/-- The loop of `sendReload` (serve.go 64-72) over the entries in the order `range`
yields them. `fails client` says whether the `Write` to that client's writer
returns an error. -/
def sendReloadLoop (fails : String → Bool) :
    List Entry → World → Outcome
  | [], w => .returned w
  | ⟨client, conn⟩ :: rest, w =>
    let w1 := w.call conn.writer (.Write msgBytes (fails client))
    if fails client then
      match removeConnection client w1 with
      | .returned w2 => sendReloadLoop fails rest w2
      | o => o
    else
      sendReloadLoop fails rest (w1.call conn.flusher .Flush)

/-- The method `sendReload` (serve.go 58-73): `RLock`, the loop, and the deferred
`RUnlock` when the function returns. -/
def sendReload (order : List Entry) (fails : String → Bool)
    (w : World) : Outcome :=
  match w.b.connectionsMutex.RLock with
  | none => .blocked w
  | some m =>
    match sendReloadLoop fails order (w.setMutex m) with
    | .returned w1 => .returned (w1.setMutex w1.b.connectionsMutex.RUnlock)
    | o => o

/-- The method `handleReloadReq` (serve.go 76-78): it only calls `sendReload`;
neither the response writer nor the request is used. -/
def handleReloadReq (_res : ResponseWriter) (_req : Request)
    (order : List Entry) (fails : String → Bool)
    (w : World) : Outcome :=
  sendReload order fails w

/-- The method `handleConnection` (serve.go 25-47) up to the point where it waits
for `req.Context().Done()`. -/
def handleConnection (rw : ResponseWriter) (req : Request) (w : World) : Outcome :=
  if rw.isFlusher = false then
    .returned (w.call rw.id (.Error "streaming unsupported" StatusInternalServerError))
  else
    match w.b.connectionsMutex.Lock with
    | none => .blocked w
    | some m =>
      let w1 := w.setMutex m
      let w2 := w1.setConnections
        (w1.b.connections.insert req.RemoteAddr { writer := rw.id, flusher := rw.id })
      let w3 := w2.setMutex w2.b.connectionsMutex.Unlock
      let w4 := w3.headerSet rw.id "Content-Type" "text/event-stream"
      let w5 := w4.headerSet rw.id "Cache-Control" "no-cache"
      let w6 := w5.headerSet rw.id "Connection" "keep-alive"
      let w7 := w6.headerSet rw.id "Access-Control-Allow-Origin" "*"
      .suspended w7

/-- The rest of `handleConnection` (serve.go 48), run when the request's context
is cancelled: `b.removeConnection(req.RemoteAddr)`, then the handler returns. -/
def handleConnectionDone (req : Request) (w : World) : Outcome :=
  removeConnection req.RemoteAddr w

/-! ## Runs of several calls -/

/-- The world at the start of `main`: `broker{connections: map[string]*connection{}}`,
the zero mutex, and response writers nothing has been done to. -/
def World.init : World :=
  { b := { connections := ∅, connectionsMutex := RWMutex.unlocked }
    header := fun _ _ => []
    trace := [] }

/-- Number of entries of the map (`len(b.connections)`). -/
def World.size (w : World) : Nat := w.b.connections.entries.length

/-- Run `f` after a call that returned; a call that did not return stays where it is. -/
def Outcome.andThen (o : Outcome) (f : World → Outcome) : Outcome :=
  match o with
  | .returned w => f w
  | o => o

/-- The call `removeConnection(key)` made `n` times in a row. -/
def removeConnectionTimes (key : String) : Nat → World → Outcome
  | 0, w => .returned w
  | n + 1, w => (removeConnection key w).andThen (removeConnectionTimes key n)

/-- One run of `sendReload` after the other; every run has its own iteration order
and its own write results. -/
def sendReloads : List (List Entry × (String → Bool)) → World → Outcome
  | [], w => .returned w
  | r :: rs, w => (sendReload r.1 r.2 w).andThen (sendReloads rs)

/-- The calls of one broadcast in which every write succeeds: for every entry, in
iteration order, the write of the message and then the flush. -/
def deliveries (order : List Entry) : List (Nat × Call) :=
  order.flatMap fun e => [(e.2.writer, Call.Write msgBytes false), (e.2.flusher, Call.Flush)]

/-- Every recorded call in `evs` is a flush or a write of the reload message. -/
def OnlyReload (evs : List (Nat × Call)) : Prop :=
  ∀ e ∈ evs, e.2 = Call.Flush ∨ ∃ err, e.2 = Call.Write msgBytes err

/-- The entries `range` yields before the first one whose write fails. -/
def servedBefore (fails : String → Bool) (order : List Entry) : List Entry :=
  order.takeWhile fun e => !fails e.1

/-- The first entry in iteration order whose write fails. -/
def firstFailing (fails : String → Bool) (order : List Entry) : Option Entry :=
  order.find? fun e => fails e.1

/-! ## The broker as a transition system -/

/-- What can happen to the broker: a subscribe request arrives and `handleConnection`
runs up to its wait; the context of a waiting handler is cancelled and the handler
runs to its end; a reload request arrives and `sendReload` runs. -/
inductive Event where
  | subscribe (rw : ResponseWriter) (req : Request)
  | cancel (i : Nat)
  | broadcast (order : List Entry) (fails : String → Bool)

/-- The world and the handlers that wait at `<-req.Context().Done()`. A goroutine
that is parked inside `Lock()` is not listed, because it never runs again: the
lock it waits for is held by a reader that is itself parked
(`Server.readers_mono`). -/
structure Server where
  w : World
  pending : List (ResponseWriter × Request)

/-- The server at the start of `main`. -/
def Server.init : Server := { w := World.init, pending := [] }

/-- One event. `cancel i` needs an `i`-th waiting handler; `broadcast` needs an
iteration order that visits every entry of the map once. -/
def Server.step (s : Server) : Event → Option Server
  | .subscribe rw req =>
    match handleConnection rw req s.w with
    | .suspended w1 => some { w := w1, pending := s.pending ++ [(rw, req)] }
    | o => some { s with w := o.world }
  | .cancel i =>
    match s.pending[i]? with
    | none => none
    | some hr =>
      some { w := (handleConnectionDone hr.2 s.w).world, pending := s.pending.eraseIdx i }
  | .broadcast order fails =>
    if order.Perm s.w.b.connections.entries then
      some { s with w := (sendReload order fails s.w).world }
    else none

/-- The states the server can reach from the start of `main`. -/
inductive Server.Reachable : Server → Prop
  | init : Server.Reachable Server.init
  | step {s : Server} {ev : Event} {s1 : Server} :
      Server.Reachable s → s.step ev = some s1 → Server.Reachable s1

/-- The event is the cancellation of the request that registered connection `c`
under key `k`. -/
def ownCancel (s : Server) (ev : Event) (k : String) (c : connection) : Prop :=
  ∃ i hr, ev = .cancel i ∧ s.pending[i]? = some hr ∧ hr.2.RemoteAddr = k ∧ hr.1.id = c.writer

/-- The event is a broadcast in which the write to the connection under key `k` fails. -/
def failedWrite (ev : Event) (k : String) : Prop :=
  ∃ order fails, ev = .broadcast order fails ∧ fails k = true

/-- The event is a subscribe request of a flush-capable writer with remote address `k`. -/
def subscribeAt (ev : Event) (k : String) : Prop :=
  ∃ rw req, ev = .subscribe rw req ∧ req.RemoteAddr = k ∧ rw.isFlusher = true

/-- The event is the cancellation of a waiting request with remote address `k`. -/
def cancelAt (s : Server) (ev : Event) (k : String) : Prop :=
  ∃ i hr, ev = .cancel i ∧ s.pending[i]? = some hr ∧ hr.2.RemoteAddr = k

/-! ## Goroutines

The same methods statement by statement, so that several goroutines can run
interleaved. A goroutine is at a program point: the statement it executes next.
One step executes one statement; a statement that cannot proceed (a lock that is
not available, the wait for cancellation) gives no step. -/

/-- Program points of `removeConnection` (serve.go 52, 53, 54). -/
inductive RmPc where
  | lock
  | delete
  | unlock
  deriving DecidableEq, Repr

/-- Program points of `handleConnection`: the type assertion with its error branch
(serve.go 27-31), `Lock` (34), the map store (35-38), `Unlock` (39), the four header
writes (41-44), the wait for `Done` (47), the call of `removeConnection` (48). -/
inductive HPc where
  | assert
  | lock
  | store
  | unlock
  | headers
  | wait
  | remove (p : RmPc)
  | done
  deriving DecidableEq, Repr

/-- Program points of `sendReload`: `RLock` (serve.go 59), the start of `range` (64),
the head of the loop with the entries still to visit, where the next statement is
the `Write` for the first of them (65) or, with none left, the return and its
deferred `RUnlock` (60); the `Flush` (71); the call of `removeConnection` (67).
The order of iteration is fixed when `range` starts; the map cannot change while a
reloader is in its loop (`frozen_exec`). -/
inductive SPc where
  | rlock
  | range
  | loop (todo : List Entry)
  | flush (cur : Entry) (rest : List Entry)
  | remove (p : RmPc) (cur : Entry) (rest : List Entry)
  | done
  deriving DecidableEq, Repr

/-- A goroutine of the HTTP server: it runs `handleConnection` for a request, or
`sendReload` (through `handleReloadReq`). -/
inductive Goroutine where
  | handler (rw : ResponseWriter) (req : Request) (pc : HPc)
  | reloader (pc : SPc)
  deriving DecidableEq, Repr

/-- What a step needs from outside the goroutine: nothing (`run`); the order in
which `range` is going to yield the entries; whether the `Write` returns an error;
the cancellation of the request's context. -/
inductive Choice where
  | run
  | range (order : List Entry)
  | write (err : Bool)
  | cancel
  deriving DecidableEq, Repr

/-- One statement of `removeConnection key`; the second component is the program
point that follows, `none` when the method returns. -/
def removeStep (key : String) (p : RmPc) (w : World) : Option (Option RmPc × World) :=
  match p with
  | .lock => w.b.connectionsMutex.Lock.map fun m => (some .delete, w.setMutex m)
  | .delete => some (some .unlock, w.setConnections (w.b.connections.erase key))
  | .unlock => some (none, w.setMutex w.b.connectionsMutex.Unlock)

/-- One statement of a goroutine. -/
def Goroutine.step (g : Goroutine) (c : Choice) (w : World) : Option (Goroutine × World) :=
  match g, c with
  | .handler rw req .assert, .run =>
    if rw.isFlusher = false then
      some (.handler rw req .done,
        w.call rw.id (.Error "streaming unsupported" StatusInternalServerError))
    else some (.handler rw req .lock, w)
  | .handler rw req .lock, .run =>
    w.b.connectionsMutex.Lock.map fun m => (.handler rw req .store, w.setMutex m)
  | .handler rw req .store, .run =>
    some (.handler rw req .unlock, w.setConnections
      (w.b.connections.insert req.RemoteAddr { writer := rw.id, flusher := rw.id }))
  | .handler rw req .unlock, .run =>
    some (.handler rw req .headers, w.setMutex w.b.connectionsMutex.Unlock)
  | .handler rw req .headers, .run =>
    some (.handler rw req .wait,
      (((w.headerSet rw.id "Content-Type" "text/event-stream").headerSet rw.id
        "Cache-Control" "no-cache").headerSet rw.id
        "Connection" "keep-alive").headerSet rw.id "Access-Control-Allow-Origin" "*")
  | .handler rw req .wait, .cancel => some (.handler rw req (.remove .lock), w)
  | .handler rw req (.remove p), .run =>
    (removeStep req.RemoteAddr p w).map fun r =>
      (match r.1 with
        | some q => .handler rw req (.remove q)
        | none => .handler rw req .done, r.2)
  | .reloader .rlock, .run =>
    w.b.connectionsMutex.RLock.map fun m => (.reloader .range, w.setMutex m)
  | .reloader .range, .range order =>
    if order.Perm w.b.connections.entries then some (.reloader (.loop order), w) else none
  | .reloader (.loop (cur :: rest)), .write err =>
    some (.reloader (if err then .remove .lock cur rest else .flush cur rest),
      w.call cur.2.writer (.Write msgBytes err))
  | .reloader (.loop []), .run =>
    some (.reloader .done, w.setMutex w.b.connectionsMutex.RUnlock)
  | .reloader (.flush cur rest), .run =>
    some (.reloader (.loop rest), w.call cur.2.flusher .Flush)
  | .reloader (.remove p cur rest), .run =>
    (removeStep cur.1 p w).map fun r =>
      (match r.1 with
        | some q => .reloader (.remove q cur rest)
        | none => .reloader (.loop rest), r.2)
  | _, _ => none

/-- The goroutines of the server and the world they share. -/
structure Sys where
  w : World
  gs : List Goroutine

/-- Goroutine `t` executes one statement. -/
def Sys.exec (s : Sys) (a : Nat × Choice) : Option Sys :=
  match s.gs[a.1]? with
  | none => none
  | some g => (g.step a.2 s.w).map fun r => { w := r.2, gs := s.gs.set a.1 r.1 }

/-- A schedule: the steps in the order in which they are taken. -/
def Sys.execs (s : Sys) : List (Nat × Choice) → Option Sys
  | [] => some s
  | a :: as => (s.exec a).bind fun s1 => s1.execs as

/-- The server when the requests have arrived and their goroutines have not run
yet: a handler for every subscribe request in `hs`, and `m` reloaders. -/
def Sys.start (hs : List (ResponseWriter × Request)) (m : Nat) : Sys :=
  { w := World.init
    gs := hs.map (fun h => .handler h.1 h.2 .assert) ++ List.replicate m (.reloader .rlock) }

/-- The goroutine holds the shared lock: a reloader between its `RLock` and its
`RUnlock`. -/
def Goroutine.holdsShared : Goroutine → Bool
  | .reloader .rlock => false
  | .reloader .done => false
  | .reloader _ => true
  | .handler _ _ _ => false

/-- The goroutine holds the exclusive lock: between a `Lock` and the `Unlock` that
follows it. -/
def Goroutine.holdsExclusive : Goroutine → Bool
  | .handler _ _ .store => true
  | .handler _ _ .unlock => true
  | .handler _ _ (.remove .delete) => true
  | .handler _ _ (.remove .unlock) => true
  | .reloader (.remove .delete _ _) => true
  | .reloader (.remove .unlock _ _) => true
  | _ => false

/-- The next statement of the goroutine writes the map: the store of
`handleConnection` or the `delete` of `removeConnection`. -/
def Goroutine.writesMap : Goroutine → Bool
  | .handler _ _ .store => true
  | .handler _ _ (.remove .delete) => true
  | .reloader (.remove .delete _ _) => true
  | _ => false

/-- The goroutine is inside the `range` loop over the map, which reads it. -/
def Goroutine.readsMap : Goroutine → Bool
  | .reloader .range => true
  | .reloader (.loop _) => true
  | .reloader (.flush _ _) => true
  | .reloader (.remove _ _ _) => true
  | _ => false

/-- Two goroutines access the map at the same time and one of them writes it. -/
def Sys.conflict (s : Sys) : Prop :=
  ∃ (i j : Nat) (gi gj : Goroutine), i ≠ j ∧ s.gs[i]? = some gi ∧ s.gs[j]? = some gj
    ∧ gi.writesMap = true ∧ (gj.writesMap = true ∨ gj.readsMap = true)

/-- The handler has stored its connection and not yet deleted it. -/
def Goroutine.registered : Goroutine → Bool
  | .handler _ _ .unlock => true
  | .handler _ _ .headers => true
  | .handler _ _ .wait => true
  | .handler _ _ (.remove .lock) => true
  | .handler _ _ (.remove .delete) => true
  | _ => false

/-- The handler waits for the cancellation of its request: a subscriber that has
not disconnected. -/
def Goroutine.subscribed : Goroutine → Bool
  | .handler _ _ .wait => true
  | _ => false

/-- The goroutine has nothing left to do unless a request is cancelled: a handler
that waits or has returned, a reloader that has returned. -/
def Goroutine.settled : Goroutine → Bool
  | .handler _ _ .wait => true
  | .handler _ _ .done => true
  | .reloader .done => true
  | _ => false

/-- The remote address of a handler's request. -/
def Goroutine.key : Goroutine → Option String
  | .handler _ req _ => some req.RemoteAddr
  | .reloader _ => none

/-- A reloader inside the call of `removeConnection` that follows a failed write. -/
def Goroutine.removing : Goroutine → Bool
  | .reloader (.remove _ _ _) => true
  | _ => false

/-- The recorded call is a `Write` that returned an error. -/
def failedCall (e : Nat × Call) : Bool :=
  match e.2 with
  | .Write _ err => err
  | _ => false

/-- The map entry a handler accounts for: its remote address and the connection made
of its response writer, from its store to its `delete`. -/
def Goroutine.entry : Goroutine → Option (String × connection)
  | .handler rw req pc =>
    if (Goroutine.handler rw req pc).registered = true then
      some (req.RemoteAddr, { writer := rw.id, flusher := rw.id })
    else none
  | .reloader _ => none

/-- The lock state agrees with the goroutines: the reader count is the number of
goroutines that hold the shared lock; the writer flag is set exactly when one
goroutine holds the exclusive lock, and then there is no reader. -/
def Sys.inv (s : Sys) : Prop :=
  s.w.b.connectionsMutex.readers = s.gs.countP Goroutine.holdsShared
    ∧ (s.w.b.connectionsMutex.writer = true →
        s.gs.countP Goroutine.holdsExclusive = 1 ∧ s.w.b.connectionsMutex.readers = 0)
    ∧ (s.w.b.connectionsMutex.writer = false → s.gs.countP Goroutine.holdsExclusive = 0)

/-- The map holds exactly the entries of the handlers that have stored their
connection and not yet deleted it. -/
def Sys.tracks (s : Sys) : Prop :=
  ∀ k c, s.w.b.connections.lookup k = some c ↔
    ∃ (t : Nat) (g : Goroutine), s.gs[t]? = some g ∧ g.entry = some (k, c)

/-- No two handlers have the same remote address. -/
def Sys.keysDistinct (s : Sys) : Prop :=
  (s.gs.filterMap Goroutine.key).Nodup

/-- Every goroutine has run as far as it can without a cancellation: the handlers
wait or have returned, the broadcasts have returned. -/
def Sys.settled (s : Sys) : Bool :=
  s.gs.all Goroutine.settled

/-- A handler is about to set the headers of its response writer (serve.go 41-44)
while a reloader is about to call `Write` on the same writer (65): two goroutines
use one `http.ResponseWriter` at the same time, and no lock orders the two
statements. -/
def Sys.writerRace (s : Sys) : Prop :=
  ∃ (i j : Nat) (rw : ResponseWriter) (req : Request) (cur : Entry) (rest : List Entry),
    s.gs[i]? = some (.handler rw req .headers)
      ∧ s.gs[j]? = some (.reloader (.loop (cur :: rest)))
      ∧ cur.2.writer = rw.id

/-- The size part of the concurrent-safety property as the specification states it:
whatever the subscribe requests, the number of broadcasts and the interleaving, once
all goroutines have settled the number of entries of the map is the number of
subscribers that have not disconnected. -/
def FinalSizeAsStated : Prop :=
  ∀ (hs : List (ResponseWriter × Request)) (m : Nat) (sched : List (Nat × Choice)) (s : Sys),
    (Sys.start hs m).execs sched = some s → s.settled = true →
    s.w.size = s.gs.countP Goroutine.subscribed

/-- The steps of a reloader that runs its loop over `todo` without interference,
up to its return or to the `Lock` it cannot pass. -/
def loopSchedule (t : Nat) (fails : String → Bool) : List Entry → List (Nat × Choice)
  | [] => [(t, .run)]
  | e :: rest =>
    if fails e.1 then [(t, .write true)]
    else (t, .write false) :: (t, .run) :: loopSchedule t fails rest

/-- The program point at which `loopSchedule` leaves the reloader. -/
def loopEnd (fails : String → Bool) : List Entry → SPc
  | [] => .done
  | e :: rest => if fails e.1 then .remove .lock e rest else loopEnd fails rest

/-- The steps of a goroutine that runs `sendReload` without interference. -/
def reloadSchedule (t : Nat) (order : List Entry) (fails : String → Bool) :
    List (Nat × Choice) :=
  (t, .run) :: (t, .range order) :: loopSchedule t fails order

/-- The steps of a goroutine that runs `handleConnection` up to its wait, or to its
return when the writer cannot flush. -/
def subscribeSchedule (t : Nat) (rw : ResponseWriter) : List (Nat × Choice) :=
  if rw.isFlusher then [(t, .run), (t, .run), (t, .run), (t, .run), (t, .run)] else [(t, .run)]

/-- The steps of a waiting handler whose request is cancelled. -/
def cancelSchedule (t : Nat) : List (Nat × Choice) :=
  [(t, .cancel), (t, .run), (t, .run), (t, .run)]

/-- The lifecycle rule as the specification states it: in a reachable state, the
entry of a registered connection changes only by the cancellation of its own
request or by a failed broadcast write to it. -/
def LifecycleAsStated : Prop :=
  ∀ (s s1 : Server) (ev : Event) (k : String) (c : connection),
    Server.Reachable s → s.step ev = some s1 →
    s.w.b.connections.lookup k = some c → s1.w.b.connections.lookup k ≠ some c →
    ownCancel s ev k c ∨ failedWrite ev k

/-! ## Example data -/

/-- A flush-capable response writer. -/
def rwA : ResponseWriter := { id := 0, isFlusher := true }

/-- A second flush-capable response writer. -/
def rwB : ResponseWriter := { id := 1, isFlusher := true }

/-- A third flush-capable response writer. -/
def rwC : ResponseWriter := { id := 2, isFlusher := true }

/-- A response writer that does not implement `http.Flusher`. -/
def rwPlain : ResponseWriter := { id := 3, isFlusher := false }

/-- A request from remote address "A". -/
def reqA : Request := { RemoteAddr := "A" }

/-- A request from remote address "B". -/
def reqB : Request := { RemoteAddr := "B" }

/-- The world after subscriber A registered. -/
def worldA : World := (handleConnection rwA reqA World.init).world

/-- The world after subscribers A and B registered. -/
def worldAB : World := (handleConnection rwB reqB worldA).world

/-- Iteration order A, B. -/
def orderAB : List Entry :=
  [⟨"A", { writer := 0, flusher := 0 }⟩, ⟨"B", { writer := 1, flusher := 1 }⟩]

/-- Iteration order B, A. -/
def orderBA : List Entry :=
  [⟨"B", { writer := 1, flusher := 1 }⟩, ⟨"A", { writer := 0, flusher := 0 }⟩]

/-- The write to A fails, every other write succeeds. -/
def failsA (client : String) : Bool := client == "A"

/-- Every write succeeds. -/
def failsNone (_client : String) : Bool := false

/-- The server after subscriber A registered. -/
def serverA : Server := { w := worldA, pending := [(rwA, reqA)] }

/-- The server after a second subscriber with remote address "A" registered. -/
def serverAC : Server :=
  { w := (handleConnection rwC reqA worldA).world, pending := [(rwA, reqA), (rwC, reqA)] }

/-! ## Theorems -/

/-! ### Helper lemmas -/

theorem Lock_free {m : RWMutex} (hr : m.readers = 0) (hw : m.writer = false) :
    m.Lock = some { m with writer := true } := by
  simp [RWMutex.Lock, hr, hw]

theorem unlocked_iff {m : RWMutex} (h : m = RWMutex.unlocked) :
    m.readers = 0 ∧ m.writer = false := by
  subst h
  exact ⟨rfl, rfl⟩

theorem Lock_held {m : RWMutex} (hr : 0 < m.readers) : m.Lock = none := by
  have : m.readers ≠ 0 := by omega
  simp [RWMutex.Lock, this]

theorem erase_absent (c : ConnMap) (k : String) (h : c.lookup k = none) : c.erase k = c := by
  apply AList.ext
  have hk : k ∉ c.entries.keys := by
    rw [AList.lookup_eq_none] at h
    exact h
  simpa [AList.erase] using List.kerase_of_not_mem_keys hk

theorem erase_twice (c : ConnMap) (k : String) : (c.erase k).erase k = c.erase k :=
  erase_absent _ _ (AList.lookup_erase k c)

theorem removeConnection_free (key : String) (w : World)
    (hr : w.b.connectionsMutex.readers = 0) (hw : w.b.connectionsMutex.writer = false) :
    removeConnection key w = .returned (w.setConnections (w.b.connections.erase key)) := by
  have hm : ({ w.b.connectionsMutex with writer := false } : RWMutex) = w.b.connectionsMutex := by
    cases hmm : w.b.connectionsMutex
    simp_all
  simp only [removeConnection, Lock_free hr hw, World.setMutex, World.setConnections,
    RWMutex.Unlock]
  simp [hm]

theorem removeConnectionTimes_free (key : String) (n : Nat) (w : World)
    (hr : w.b.connectionsMutex.readers = 0) (hw : w.b.connectionsMutex.writer = false) :
    removeConnectionTimes key (n + 1) w
      = .returned (w.setConnections (w.b.connections.erase key)) := by
  induction n generalizing w with
  | zero =>
    simp [removeConnectionTimes, removeConnection_free key w hr hw, Outcome.andThen]
  | succ n ih =>
    rw [removeConnectionTimes, removeConnection_free key w hr hw]
    simp only [Outcome.andThen]
    rw [ih _ (by simpa [World.setConnections] using hr) (by simpa [World.setConnections] using hw)]
    simp [World.setConnections, erase_twice]

theorem removeConnection_trace (key : String) (w : World) :
    (removeConnection key w).world.trace = w.trace
      ∧ (removeConnection key w).world.header = w.header := by
  unfold removeConnection
  cases w.b.connectionsMutex.Lock <;> exact ⟨rfl, rfl⟩

theorem sendReloadLoop_trace (fails : String → Bool)
    (order : List Entry) (w : World) :
    ∃ evs, (sendReloadLoop fails order w).world.trace = w.trace ++ evs ∧ OnlyReload evs := by
  induction order generalizing w with
  | nil => exact ⟨[], by simp [sendReloadLoop, Outcome.world], by simp [OnlyReload]⟩
  | cons e rest ih =>
    obtain ⟨client, conn⟩ := e
    cases hf : fails client with
    | false =>
      obtain ⟨evs, h1, h2⟩ :=
        ih ((w.call conn.writer (.Write msgBytes false)).call conn.flusher .Flush)
      refine ⟨[(conn.writer, .Write msgBytes false), (conn.flusher, .Flush)] ++ evs, ?_, ?_⟩
      · simp only [sendReloadLoop, hf]
        simpa [World.call] using h1
      · intro e he
        simp only [List.cons_append, List.nil_append, List.mem_cons] at he
        rcases he with rfl | rfl | he
        · exact Or.inr ⟨false, rfl⟩
        · exact Or.inl rfl
        · exact h2 e he
    | true =>
      have ht := (removeConnection_trace client (w.call conn.writer (.Write msgBytes true))).1
      cases hrc : removeConnection client (w.call conn.writer (.Write msgBytes true)) with
      | returned w2 =>
        obtain ⟨evs, h1, h2⟩ := ih w2
        rw [hrc] at ht
        refine ⟨(conn.writer, .Write msgBytes true) :: evs, ?_, ?_⟩
        · simp only [sendReloadLoop, hf, hrc, if_true]
          rw [h1]
          simp only [Outcome.world] at ht
          simp [ht, World.call]
        · intro e he
          rcases List.mem_cons.1 he with rfl | he
          · exact Or.inr ⟨true, rfl⟩
          · exact h2 e he
      | suspended w2 =>
        rw [hrc] at ht
        refine ⟨[(conn.writer, .Write msgBytes true)], ?_, ?_⟩
        · simp only [sendReloadLoop, hf, hrc, if_true]
          simpa [Outcome.world, World.call] using ht
        · intro e he
          rcases List.mem_singleton.1 he with rfl
          exact Or.inr ⟨true, rfl⟩
      | blocked w2 =>
        rw [hrc] at ht
        refine ⟨[(conn.writer, .Write msgBytes true)], ?_, ?_⟩
        · simp only [sendReloadLoop, hf, hrc, if_true]
          simpa [Outcome.world, World.call] using ht
        · intro e he
          rcases List.mem_singleton.1 he with rfl
          exact Or.inr ⟨true, rfl⟩

theorem sendReload_trace (fails : String → Bool)
    (order : List Entry) (w : World) :
    ∃ evs, (sendReload order fails w).world.trace = w.trace ++ evs ∧ OnlyReload evs := by
  unfold sendReload
  cases hl : w.b.connectionsMutex.RLock with
  | none => exact ⟨[], by simp [Outcome.world], by simp [OnlyReload]⟩
  | some m =>
    obtain ⟨evs, h1, h2⟩ := sendReloadLoop_trace fails order (w.setMutex m)
    refine ⟨evs, ?_, h2⟩
    cases hrc : sendReloadLoop fails order (w.setMutex m) with
    | returned w1 =>
      rw [hrc] at h1
      simp only [hrc]
      simpa [Outcome.world, World.setMutex] using h1
    | suspended w1 =>
      rw [hrc] at h1
      simp only [hrc]
      simpa [Outcome.world, World.setMutex] using h1
    | blocked w1 =>
      rw [hrc] at h1
      simp only [hrc]
      simpa [Outcome.world, World.setMutex] using h1

theorem sendReloadLoop_held (fails : String → Bool)
    (order : List Entry) (w : World)
    (hr : 0 < w.b.connectionsMutex.readers) :
    sendReloadLoop fails order w =
      match firstFailing fails order with
      | none => .returned { w with trace := w.trace ++ deliveries order }
      | some e => .blocked
          { w with trace := w.trace ++ deliveries (servedBefore fails order)
              ++ [(e.2.writer, Call.Write msgBytes true)] } := by
  induction order generalizing w with
  | nil => simp [sendReloadLoop, firstFailing, deliveries]
  | cons e rest ih =>
    obtain ⟨client, conn⟩ := e
    cases hf : fails client with
    | true =>
      simp [sendReloadLoop, hf, firstFailing, servedBefore, deliveries, removeConnection,
        World.call, World.setMutex, Lock_held hr]
    | false =>
      have hr2 : 0 < ((w.call conn.writer (.Write msgBytes false)).call conn.flusher
          .Flush).b.connectionsMutex.readers := hr
      simp only [sendReloadLoop, hf]
      rw [ih _ hr2]
      simp only [firstFailing, servedBefore, hf, List.find?_cons, List.takeWhile_cons]
      cases List.find? (fun e => fails e.1) rest <;>
        simp [deliveries, World.call, List.append_assoc]

theorem sendReload_eq (fails : String → Bool)
    (order : List Entry) (w : World)
    (hw : w.b.connectionsMutex.writer = false) :
    sendReload order fails w =
      match firstFailing fails order with
      | none => .returned { w with trace := w.trace ++ deliveries order }
      | some e => .blocked
          { b := { connections := w.b.connections
                   connectionsMutex :=
                     { readers := w.b.connectionsMutex.readers + 1, writer := false } }
            header := w.header
            trace := w.trace ++ deliveries (servedBefore fails order)
              ++ [(e.2.writer, Call.Write msgBytes true)] } := by
  have hl : w.b.connectionsMutex.RLock
      = some { w.b.connectionsMutex with readers := w.b.connectionsMutex.readers + 1 } := by
    simp [RWMutex.RLock, hw]
  unfold sendReload
  rw [hl]
  simp only
  rw [sendReloadLoop_held fails order _ (by simp [World.setMutex])]
  cases firstFailing fails order with
  | none =>
    simp only [World.setMutex, RWMutex.RUnlock, Nat.add_sub_cancel]
  | some e => simp [World.setMutex, hw]

theorem firstFailing_none (fails : String → Bool)
    (order : List Entry)
    (hok : ∀ e ∈ order, fails e.1 = false) : firstFailing fails order = none := by
  simp only [firstFailing, List.find?_eq_none]
  intro e he
  simp [hok e he]

theorem callsIn_append (t u : List (Nat × Call)) (id : Nat) :
    callsIn (t ++ u) id = callsIn t id ++ callsIn u id := by
  simp [callsIn]

theorem count_deliveries (order : List Entry) (id : Nat) :
    (callsIn (deliveries order) id).count (Call.Write msgBytes false)
        = order.countP (fun e => e.2.writer = id)
      ∧ (callsIn (deliveries order) id).count Call.Flush
        = order.countP (fun e => e.2.flusher = id)
      ∧ ∀ c, c ≠ Call.Write msgBytes false → c ≠ Call.Flush →
        (callsIn (deliveries order) id).count c = 0 := by
  induction order with
  | nil => simp [deliveries, callsIn]
  | cons e rest ih =>
    obtain ⟨ih1, ih2, ih3⟩ := ih
    have hd : deliveries (e :: rest)
        = [(e.2.writer, Call.Write msgBytes false), (e.2.flusher, Call.Flush)]
          ++ deliveries rest := by
      simp [deliveries]
    rw [hd, callsIn_append]
    refine ⟨?_, ?_, ?_⟩
    · rw [List.count_append, ih1, List.countP_cons]
      by_cases h1 : e.2.writer = id <;> by_cases h2 : e.2.flusher = id <;>
        simp [callsIn, h1, h2, Nat.add_comm]
    · rw [List.count_append, ih2, List.countP_cons]
      by_cases h1 : e.2.writer = id <;> by_cases h2 : e.2.flusher = id <;>
        simp [callsIn, h1, h2, Nat.add_comm]
    · intro c hc1 hc2
      rw [List.count_append, ih3 c hc1 hc2]
      by_cases h1 : e.2.writer = id <;> by_cases h2 : e.2.flusher = id <;>
        simp [callsIn, h1, h2, Ne.symm hc1, Ne.symm hc2, List.count_cons]

theorem sendReloads_ok (w : World)
    (rs : List (List Entry × (String → Bool)))
    (hw : w.b.connectionsMutex.writer = false)
    (hok : ∀ r ∈ rs, ∀ e ∈ r.1, r.2 e.1 = false) :
    sendReloads rs w
      = .returned { w with trace := w.trace ++ rs.flatMap (fun r => deliveries r.1) } := by
  induction rs generalizing w with
  | nil => simp [sendReloads]
  | cons r rs ih =>
    rw [sendReloads, sendReload_eq r.2 r.1 w hw,
      firstFailing_none r.2 r.1 (hok r (List.mem_cons_self _ _))]
    simp only [Outcome.andThen]
    rw [ih { w with trace := w.trace ++ deliveries r.1 } hw
      (fun r1 h1 => hok r1 (List.mem_cons_of_mem _ h1))]
    simp [List.append_assoc]

theorem sendReload_connections (fails : String → Bool)
    (order : List Entry) (w : World) :
    (sendReload order fails w).world.b.connections = w.b.connections := by
  unfold sendReload
  cases hl : w.b.connectionsMutex.RLock with
  | none => rfl
  | some m =>
    have hm : 0 < (w.setMutex m).b.connectionsMutex.readers := by
      simp only [RWMutex.RLock] at hl
      split at hl
      · cases hl
        simp [World.setMutex]
      · cases hl
    simp only [sendReloadLoop_held fails order (w.setMutex m) hm]
    cases firstFailing fails order <;> rfl

theorem removeConnection_lookup_ne (key k : String) (w : World) (h : k ≠ key) :
    (removeConnection key w).world.b.connections.lookup k = w.b.connections.lookup k := by
  unfold removeConnection
  cases w.b.connectionsMutex.Lock with
  | none => rfl
  | some m => exact AList.lookup_erase_ne h

theorem handleConnection_lookup_ne (rw : ResponseWriter) (req : Request) (k : String)
    (w : World) (h : k ≠ req.RemoteAddr ∨ rw.isFlusher = false) :
    (handleConnection rw req w).world.b.connections.lookup k = w.b.connections.lookup k := by
  unfold handleConnection
  cases hf : rw.isFlusher with
  | false => rfl
  | true =>
    simp only [Bool.true_eq_false, if_false]
    cases w.b.connectionsMutex.Lock with
    | none => rfl
    | some m =>
      rcases h with h | h
      · exact AList.lookup_insert_ne h
      · simp [hf] at h

/-! ### Claims -/

/-- C4. Called when nobody holds the lock, `removeConnection k` returns (it has no error
result and never waits), the key `k` is absent afterwards, every other key maps to
the same connection as before, the mutex is as before and nothing is done to any
response writer,
and when `k` was absent the map is unchanged; calling it `n + 1` times in a row
gives the same outcome as calling it once. -/
theorem removeConnection_idempotent_removal (k : String) (w : World)
    (hfree : w.b.connectionsMutex = RWMutex.unlocked) :
    ∃ w1, removeConnection k w = .returned w1
      ∧ w1.b.connections.lookup k = none
      ∧ (∀ k1, k1 ≠ k → w1.b.connections.lookup k1 = w.b.connections.lookup k1)
      ∧ (w.b.connections.lookup k = none → w1.b.connections = w.b.connections)
      ∧ w1.b.connectionsMutex = w.b.connectionsMutex
      ∧ w1.header = w.header ∧ w1.trace = w.trace
      ∧ ∀ n, removeConnectionTimes k (n + 1) w = removeConnection k w := by
  obtain ⟨hr, hw⟩ := unlocked_iff hfree
  refine ⟨_, removeConnection_free k w hr hw, ?_, ?_, ?_, rfl, rfl, rfl, ?_⟩
  · exact AList.lookup_erase k _
  · intro k1 hk
    exact AList.lookup_erase_ne hk
  · intro h
    exact erase_absent _ _ h
  · intro n
    rw [removeConnectionTimes_free k n w hr hw, removeConnection_free k w hr hw]

/-- C4 at a concrete input: A is registered, the lock is free, and `removeConnection "A"`
is called once and three times. -/
theorem removeConnection_idempotent_removal_witness :
    worldA.b.connectionsMutex = RWMutex.unlocked
      ∧ worldA.b.connections.lookup "A" = some { writer := 0, flusher := 0 }
      ∧ ∃ w1, removeConnection "A" worldA = .returned w1
        ∧ w1.b.connections.lookup "A" = none
        ∧ removeConnectionTimes "A" 3 worldA = removeConnection "A" worldA :=
  ⟨by decide, by decide,
    let ⟨w1, h1, h2, _, _, _, _, _, h8⟩ :=
      removeConnection_idempotent_removal "A" worldA (by decide)
    ⟨w1, h1, h2, h8 2⟩⟩

theorem size_insert_absent (c : ConnMap) (k : String) (v : connection) (h : c.lookup k = none) :
    (c.insert k v).entries.length = c.entries.length + 1 := by
  have hk : k ∉ c.entries.keys := by
    rw [AList.lookup_eq_none] at h
    exact h
  rw [AList.insert_entries, List.kerase_of_not_mem_keys hk]
  rfl

theorem size_insert_present (c : ConnMap) (k : String) (v : connection)
    (h : c.lookup k ≠ none) : (c.insert k v).entries.length = c.entries.length := by
  have hk : k ∈ c.entries.keys := by
    by_contra hn
    exact h (AList.lookup_eq_none.2 hn)
  have h1 : (List.kerase k c.entries).length = c.entries.length - 1 := by
    have := congrArg List.length (List.keys_kerase (a := k) (l := c.entries))
    simpa [List.keys, List.length_erase_of_mem (show k ∈ c.entries.map Sigma.fst from hk)] using this
  have h2 : 0 < c.entries.length := by
    cases hc : c.entries with
    | nil => simp [hc, List.keys] at hk
    | cons a l => simp
  rw [AList.insert_entries, List.length_cons, h1]
  omega

theorem handleConnection_free (rw : ResponseWriter) (req : Request) (w : World)
    (hf : rw.isFlusher = true)
    (hr : w.b.connectionsMutex.readers = 0) (hw : w.b.connectionsMutex.writer = false) :
    handleConnection rw req w = .suspended
      { b := { connections :=
                 w.b.connections.insert req.RemoteAddr { writer := rw.id, flusher := rw.id }
               connectionsMutex := w.b.connectionsMutex }
        header := Function.update w.header rw.id
          (Function.update (Function.update (Function.update (Function.update (w.header rw.id)
            "Content-Type" ["text/event-stream"]) "Cache-Control" ["no-cache"])
            "Connection" ["keep-alive"]) "Access-Control-Allow-Origin" ["*"])
        trace := w.trace } := by
  have hm : ({ w.b.connectionsMutex with writer := false } : RWMutex) = w.b.connectionsMutex := by
    cases hmm : w.b.connectionsMutex
    simp_all
  simp only [handleConnection, hf, Lock_free hr hw, World.setMutex, World.setConnections,
    RWMutex.Unlock, World.headerSet]
  simp [hm]

/-- C6. When the response writer does not implement `http.Flusher`,
`handleConnection` calls `http.Error` with the text "streaming unsupported" and
status 500 on it and returns at once (it neither waits for cancellation nor for the
lock); that call is the only thing it does, and the broker (map and mutex) is
exactly as before, so the number of entries is unchanged and an empty map stays at
size 0. -/
theorem handleConnection_unsupported (rw : ResponseWriter) (req : Request) (w : World)
    (hf : rw.isFlusher = false) :
    ∃ w1, handleConnection rw req w = .returned w1
      ∧ w1.trace = w.trace ++ [(rw.id, Call.Error "streaming unsupported" 500)]
      ∧ w1.b.connections = w.b.connections
      ∧ w1.b.connectionsMutex = w.b.connectionsMutex
      ∧ w1.size = w.size
      ∧ (w.size = 0 → w1.size = 0) := by
  refine ⟨w.call rw.id (.Error "streaming unsupported" StatusInternalServerError), ?_,
    rfl, rfl, rfl, rfl, fun h => h⟩
  simp [handleConnection, hf]

/-- C6 at a concrete input: a writer without `Flush` subscribes to the empty broker. -/
theorem handleConnection_unsupported_witness :
    rwPlain.isFlusher = false
      ∧ World.init.size = 0
      ∧ ∃ w1, handleConnection rwPlain reqA World.init = .returned w1
        ∧ w1.trace = [(3, Call.Error "streaming unsupported" 500)]
        ∧ w1.size = 0 :=
  ⟨rfl, rfl,
    let ⟨w1, h1, h2, _, _, _, h7⟩ :=
      handleConnection_unsupported rwPlain reqA World.init rfl
    ⟨w1, h1, h2, h7 rfl⟩⟩

/-- C7. For a writer that implements `http.Flusher`, when nobody holds the lock,
`handleConnection` reaches its wait with the map holding, under the key
`req.RemoteAddr`, the connection whose writer and flusher are this response
writer, whether or not the key was present; every other key maps to what it mapped
to before; the number of entries grows by one when the key was absent and is
unchanged when it was present. -/
theorem handleConnection_registers (rw : ResponseWriter) (req : Request) (w : World)
    (hf : rw.isFlusher = true) (hfree : w.b.connectionsMutex = RWMutex.unlocked) :
    ∃ w1, handleConnection rw req w = .suspended w1
      ∧ w1.b.connections.lookup req.RemoteAddr = some { writer := rw.id, flusher := rw.id }
      ∧ (∀ k, k ≠ req.RemoteAddr → w1.b.connections.lookup k = w.b.connections.lookup k)
      ∧ (w.b.connections.lookup req.RemoteAddr = none → w1.size = w.size + 1)
      ∧ (w.b.connections.lookup req.RemoteAddr ≠ none → w1.size = w.size) := by
  obtain ⟨hr, hw⟩ := unlocked_iff hfree
  refine ⟨_, handleConnection_free rw req w hf hr hw, ?_, ?_, ?_, ?_⟩
  · exact AList.lookup_insert _
  · intro k hk
    exact AList.lookup_insert_ne hk
  · intro h
    exact size_insert_absent _ _ _ h
  · intro h
    exact size_insert_present _ _ _ h

/-- C7 at a concrete input: a second request from remote address "A" overwrites the
entry of the first, and the size stays 1. -/
theorem handleConnection_registers_witness :
    rwC.isFlusher = true
      ∧ worldA.b.connectionsMutex = RWMutex.unlocked
      ∧ worldA.b.connections.lookup reqA.RemoteAddr = some { writer := 0, flusher := 0 }
      ∧ worldA.size = 1
      ∧ ∃ w1, handleConnection rwC reqA worldA = .suspended w1
        ∧ w1.b.connections.lookup "A" = some { writer := 2, flusher := 2 }
        ∧ w1.size = 1 :=
  ⟨rfl, by decide, by decide, by decide,
    let ⟨w1, h1, h2, _, _, h5⟩ :=
      handleConnection_registers rwC reqA worldA rfl (by decide)
    ⟨w1, h1, h2, (h5 (by decide)).trans (by decide)⟩⟩

/-- C9. For a writer that implements `http.Flusher`, when nobody holds the lock,
when `handleConnection` reaches its wait the header map of the response holds
Content-Type = text/event-stream, Cache-Control = no-cache, Connection = keep-alive
and Access-Control-Allow-Origin = *, each as the single value of its key, and the
handler has made no `Write`, `Flush` or `http.Error` call: the trace is unchanged. -/
theorem handleConnection_headers (rw : ResponseWriter) (req : Request) (w : World)
    (hf : rw.isFlusher = true) (hfree : w.b.connectionsMutex = RWMutex.unlocked) :
    ∃ w1, handleConnection rw req w = .suspended w1
      ∧ w1.header rw.id "Content-Type" = ["text/event-stream"]
      ∧ w1.header rw.id "Cache-Control" = ["no-cache"]
      ∧ w1.header rw.id "Connection" = ["keep-alive"]
      ∧ w1.header rw.id "Access-Control-Allow-Origin" = ["*"]
      ∧ w1.trace = w.trace
      ∧ w1.callsOn rw.id = w.callsOn rw.id := by
  obtain ⟨hr, hw⟩ := unlocked_iff hfree
  refine ⟨_, handleConnection_free rw req w hf hr hw, ?_, ?_, ?_, ?_, rfl, rfl⟩ <;>
    simp [Function.update]

/-- C9 at a concrete input: the first subscriber of the empty broker. -/
theorem handleConnection_headers_witness :
    rwA.isFlusher = true
      ∧ World.init.b.connectionsMutex = RWMutex.unlocked
      ∧ ∃ w1, handleConnection rwA reqA World.init = .suspended w1
        ∧ w1.header 0 "Content-Type" = ["text/event-stream"]
        ∧ w1.header 0 "Cache-Control" = ["no-cache"]
        ∧ w1.header 0 "Connection" = ["keep-alive"]
        ∧ w1.header 0 "Access-Control-Allow-Origin" = ["*"]
        ∧ w1.trace = [] :=
  ⟨rfl, rfl,
    let ⟨w1, h1, h2, h3, h4, h5, h6, _⟩ :=
      handleConnection_headers rwA reqA World.init rfl rfl
    ⟨w1, h1, h2, h3, h4, h5, h6⟩⟩

/-- C5. In every run of `sendReload`, and of `handleReloadReq`, which is the same
run, whatever the map, the iteration order, the write results and the lock state,
the calls added to the trace are only flushes and writes whose argument is
`msgBytes`; `msgBytes` is the 14 bytes of "data: reload\n\n": it starts with
"data: ", does not contain "event:", and ends with two newline bytes. -/
theorem sendReload_only_reload_message (res : ResponseWriter) (req : Request)
    (order : List Entry) (fails : String → Bool) (w : World) :
    (∃ evs, (sendReload order fails w).world.trace = w.trace ++ evs
        ∧ ∀ e ∈ evs, e.2 = Call.Flush ∨ ∃ err, e.2 = Call.Write msgBytes err)
      ∧ (∃ evs, (handleReloadReq res req order fails w).world.trace = w.trace ++ evs
        ∧ ∀ e ∈ evs, e.2 = Call.Flush ∨ ∃ err, e.2 = Call.Write msgBytes err)
      ∧ msgBytes = [100, 97, 116, 97, 58, 32, 114, 101, 108, 111, 97, 100, 10, 10]
      ∧ msgBytes = asciiBytes "data: reload\n\n"
      ∧ msgBytes.length = 14
      ∧ msgBytes.take 6 = asciiBytes "data: "
      ∧ ¬ (asciiBytes "event:" <:+: msgBytes)
      ∧ msgBytes.drop 12 = [10, 10] := by
  refine ⟨sendReload_trace fails order w, sendReload_trace fails order w,
    by decide, by decide, by decide, by decide, by decide, by decide⟩

/-- C8. With nobody holding the lock, for broadcasts that each visit
the entries of the map in some order and in which every write succeeds: one
`sendReload` returns having added to the trace, for every entry in iteration order,
one write of the message to its writer followed by one flush of its flusher, and
nothing else, with map and mutex unchanged; and after the broadcasts `rs`
made one after the other, every writer has received as many further writes of the
message (and every flusher as many flushes) as there are broadcasts times the
entries that refer to it, and no other call. -/
theorem sendReload_delivers_each_once (w : World)
    (rs : List (List Entry × (String → Bool)))
    (hfree : w.b.connectionsMutex = RWMutex.unlocked)
    (hperm : ∀ r ∈ rs, r.1.Perm w.b.connections.entries)
    (hok : ∀ r ∈ rs, ∀ e ∈ r.1, r.2 e.1 = false) :
    (∀ r ∈ rs, sendReload r.1 r.2 w
        = .returned { w with trace := w.trace ++ deliveries r.1 })
      ∧ ∃ w1, sendReloads rs w = .returned w1
        ∧ w1.b.connections = w.b.connections
        ∧ w1.b.connectionsMutex = w.b.connectionsMutex
        ∧ w1.trace = w.trace ++ rs.flatMap (fun r => deliveries r.1)
        ∧ ∀ id,
          (w1.callsOn id).count (Call.Write msgBytes false)
              = (w.callsOn id).count (Call.Write msgBytes false)
                + rs.length * w.b.connections.entries.countP (fun e => e.2.writer = id)
            ∧ (w1.callsOn id).count Call.Flush
              = (w.callsOn id).count Call.Flush
                + rs.length * w.b.connections.entries.countP (fun e => e.2.flusher = id)
            ∧ ∀ c, c ≠ Call.Write msgBytes false → c ≠ Call.Flush →
              (w1.callsOn id).count c = (w.callsOn id).count c := by
  have hw := (unlocked_iff hfree).2
  refine ⟨?_, _, sendReloads_ok w rs hw hok, rfl, rfl, rfl, ?_⟩
  · intro r hr
    rw [sendReload_eq r.2 r.1 w hw, firstFailing_none r.2 r.1 (hok r hr)]
  · intro id
    simp only [World.callsOn, callsIn_append]
    clear hok
    induction rs with
    | nil => simp [callsIn]
    | cons r rs ih =>
      obtain ⟨ih1, ih2, ih3⟩ := ih (fun r1 h1 => hperm r1 (List.mem_cons_of_mem _ h1))
      obtain ⟨d1, d2, d3⟩ := count_deliveries r.1 id
      have hp := hperm r (List.mem_cons_self _ _)
      rw [hp.countP_eq] at d1 d2
      simp only [Entry] at d1 d2
      simp only [List.flatMap_cons, callsIn_append, List.count_append, List.length_cons] at *
      refine ⟨?_, ?_, ?_⟩
      · rw [d1]
        have := ih1
        rw [Nat.succ_mul]
        omega
      · rw [d2]
        have := ih2
        rw [Nat.succ_mul]
        omega
      · intro c hc1 hc2
        have := ih3 c hc1 hc2
        rw [d3 c hc1 hc2]
        omega

/-- The scenario of one subscriber: A subscribes to the empty broker and the map has
one entry; a reload request writes the message to A's writer once and flushes it;
A's request is cancelled and the map is empty. -/
theorem scenario_subscribe_reload_cancel :
    ∃ s1 s2 s3 : Server,
      Server.init.step (.subscribe rwA reqA) = some s1
        ∧ s1.w.size = 1
        ∧ s1.step (.broadcast [⟨"A", { writer := 0, flusher := 0 }⟩] failsNone) = some s2
        ∧ s2.w.callsOn 0 = [Call.Write (asciiBytes "data: reload\n\n") false, Call.Flush]
        ∧ s2.w.size = 1
        ∧ s2.step (.cancel 0) = some s3
        ∧ s3.w.size = 0
        ∧ s3.pending = [] := by
  refine ⟨_, _, _, rfl, by decide, rfl, by decide, by decide, rfl, by decide, rfl⟩

/-- C8 at a concrete input: subscribers A and B with distinct keys and two broadcasts,
one in each iteration order, give two writes of the message and two flushes each. -/
theorem sendReload_delivers_each_once_witness :
    worldAB.b.connectionsMutex = RWMutex.unlocked
      ∧ orderAB.Perm worldAB.b.connections.entries
      ∧ orderBA.Perm worldAB.b.connections.entries
      ∧ worldAB.callsOn 0 = [] ∧ worldAB.callsOn 1 = []
      ∧ ∃ w1, sendReloads [(orderAB, failsNone), (orderBA, failsNone)] worldAB = .returned w1
        ∧ w1.size = 2
        ∧ (w1.callsOn 0).count (Call.Write msgBytes false) = 2
        ∧ (w1.callsOn 1).count (Call.Write msgBytes false) = 2
        ∧ (w1.callsOn 0).count Call.Flush = 2
        ∧ (w1.callsOn 1).count Call.Flush = 2 :=
  ⟨by decide, by decide, by decide, by decide, by decide,
    let ⟨_, w1, h1, h2, _, _, h6⟩ :=
      sendReload_delivers_each_once worldAB [(orderAB, failsNone), (orderBA, failsNone)]
        (by decide)
        (by
          intro r hr
          simp only [List.mem_cons, List.mem_singleton, List.not_mem_nil, or_false] at hr
          rcases hr with rfl | rfl <;> decide)
        (by
          intro r hr e _
          simp only [List.mem_cons, List.mem_singleton, List.not_mem_nil, or_false] at hr
          rcases hr with rfl | rfl <;> rfl)
    ⟨w1, h1, by simp only [World.size, h2]; decide,
      (h6 0).1.trans (by decide), (h6 1).1.trans (by decide),
      (h6 0).2.1.trans (by decide), (h6 1).2.1.trans (by decide)⟩⟩

/-- C3 (counterexample). After A subscribed with writer 0, a second subscribe request
with the same remote address "A" and writer 2 is a step from a reachable state that
replaces A's registered connection, although it is neither the cancellation of A's
request nor a broadcast; and the cancellation of the first request then removes the
entry of the second connection, whose own request is still waiting. Hence the
lifecycle rule as stated does not hold. -/
theorem lifecycle_broken_by_same_key :
    ∃ s1 s2 s3 : Server,
      Server.init.step (.subscribe rwA reqA) = some s1
        ∧ s1.step (.subscribe rwC reqA) = some s2
        ∧ s2.step (.cancel 0) = some s3
        ∧ s1.w.b.connections.lookup "A" = some { writer := 0, flusher := 0 }
        ∧ s2.w.b.connections.lookup "A" = some { writer := 2, flusher := 2 }
        ∧ s2.pending = [(rwA, reqA), (rwC, reqA)]
        ∧ s3.w.b.connections.lookup "A" = none
        ∧ s3.pending = [(rwC, reqA)]
        ∧ ¬ LifecycleAsStated := by
  refine ⟨_, _, _, rfl, rfl, rfl, by decide, by decide, rfl, by decide, rfl, ?_⟩
  intro h
  have h1 : Server.Reachable
      { w := (handleConnection rwA reqA World.init).world, pending := [(rwA, reqA)] } :=
    @Server.Reachable.step Server.init (.subscribe rwA reqA) _ Server.Reachable.init rfl
  rcases h _ _ (.subscribe rwC reqA) "A" { writer := 0, flusher := 0 } h1 rfl
    (by decide) (by decide) with ⟨i, hr, he, _⟩ | ⟨o, f, he, _⟩
  · cases he
  · cases he

/-- C3 (amended). Whatever the state, when an event changes what a key `k` maps to
(the registered connection is removed or replaced), the event carries that key: it is
a subscribe request of a flush-capable writer with remote address `k`, or the
cancellation of a waiting request with remote address `k`, or a broadcast in which
the write to `k` fails. -/
theorem lifecycle_by_key (s s1 : Server) (ev : Event) (k : String) (c : connection)
    (hstep : s.step ev = some s1)
    (h0 : s.w.b.connections.lookup k = some c)
    (h1 : s1.w.b.connections.lookup k ≠ some c) :
    subscribeAt ev k ∨ cancelAt s ev k ∨ failedWrite ev k := by
  cases ev with
  | subscribe rw req =>
    left
    refine ⟨rw, req, rfl, ?_⟩
    by_contra hn
    have hne : k ≠ req.RemoteAddr ∨ rw.isFlusher = false := by
      by_cases hk : req.RemoteAddr = k
      · right
        cases hf : rw.isFlusher with
        | false => rfl
        | true => exact absurd ⟨hk, hf⟩ hn
      · left
        exact fun h => hk h.symm
    have hl := handleConnection_lookup_ne rw req k s.w hne
    simp only [Server.step] at hstep
    cases ho : handleConnection rw req s.w with
    | returned w1 =>
      rw [ho] at hstep hl
      cases hstep
      exact h1 (by simpa [Outcome.world, h0] using hl)
    | suspended w1 =>
      rw [ho] at hstep hl
      cases hstep
      exact h1 (by simpa [Outcome.world, h0] using hl)
    | blocked w1 =>
      rw [ho] at hstep hl
      cases hstep
      exact h1 (by simpa [Outcome.world, h0] using hl)
  | cancel i =>
    right
    left
    simp only [Server.step] at hstep
    cases hp : s.pending[i]? with
    | none => simp [hp] at hstep
    | some hr =>
      refine ⟨i, hr, rfl, hp, ?_⟩
      by_contra hn
      rw [hp] at hstep
      cases hstep
      have hl := removeConnection_lookup_ne hr.2.RemoteAddr k s.w (fun h => hn h.symm)
      exact h1 (by simpa [handleConnectionDone, h0] using hl)
  | broadcast order fails =>
    exfalso
    simp only [Server.step] at hstep
    split at hstep
    · cases hstep
      exact h1 (by simp [sendReload_connections, h0])
    · cases hstep

/-- C3 (amended) at a concrete input: the entry of A changes by a subscribe request
with A's remote address. -/
theorem lifecycle_by_key_witness :
    serverA.step (.subscribe rwC reqA) = some serverAC
      ∧ serverA.w.b.connections.lookup "A" = some { writer := 0, flusher := 0 }
      ∧ serverAC.w.b.connections.lookup "A" ≠ some { writer := 0, flusher := 0 }
      ∧ (subscribeAt (.subscribe rwC reqA) "A" ∨ cancelAt serverA (.subscribe rwC reqA) "A"
        ∨ failedWrite (.subscribe rwC reqA) "A") :=
  ⟨rfl, by decide, by decide,
    lifecycle_by_key serverA serverAC (.subscribe rwC reqA) "A" { writer := 0, flusher := 0 }
      rfl (by decide) (by decide)⟩

/-! ### Goroutines: the lock discipline -/

theorem countP_set_eq (p : Goroutine → Bool) (gs : List Goroutine) (t : Nat) (g g1 : Goroutine)
    (h : gs[t]? = some g) :
    (gs.set t g1).countP p + (if p g = true then 1 else 0)
      = gs.countP p + (if p g1 = true then 1 else 0) := by
  induction gs generalizing t with
  | nil => simp at h
  | cons a l ih =>
    cases t with
    | zero =>
      simp only [List.getElem?_cons_zero, Option.some.injEq] at h
      subst h
      simp only [List.set_cons_zero, List.countP_cons]
      omega
    | succ n =>
      simp only [List.getElem?_cons_succ] at h
      have := ih n h
      simp only [List.set_cons_succ, List.countP_cons]
      omega

theorem countP_pos_of_get (p : Goroutine → Bool) (gs : List Goroutine) (t : Nat) (g : Goroutine)
    (h : gs[t]? = some g) (hp : p g = true) : 0 < gs.countP p := by
  rw [List.countP_pos_iff]
  exact ⟨g, List.getElem?_mem h, hp⟩

theorem inv_step (s : Sys) (t : Nat) (c : Choice) (g g1 : Goroutine) (w1 : World)
    (hg : s.gs[t]? = some g) (hstep : g.step c s.w = some (g1, w1)) (hi : s.inv) :
    Sys.inv { w := w1, gs := s.gs.set t g1 } := by
  have hS := countP_set_eq Goroutine.holdsShared s.gs t g g1 hg
  have hE := countP_set_eq Goroutine.holdsExclusive s.gs t g g1 hg
  have hSp := countP_pos_of_get Goroutine.holdsShared s.gs t g hg
  have hEp := countP_pos_of_get Goroutine.holdsExclusive s.gs t g hg
  obtain ⟨i1, i2, i3⟩ := hi
  clear hg
  cases hwr : s.w.b.connectionsMutex.writer <;> rw [hwr] at i2 i3 <;>
    simp only [true_implies, Bool.false_eq_true, false_implies, Bool.true_eq_false] at i2 i3
  all_goals
    rcases g with ⟨rw, req, pc⟩ | pc
    · rcases pc with _ | _ | _ | _ | _ | _ | ⟨_ | _ | _⟩ | _ <;>
        rcases c with _ | order | ⟨_ | _⟩ | _ <;>
        simp [Goroutine.step, removeStep, RWMutex.Lock, RWMutex.RLock, RWMutex.Unlock,
          RWMutex.RUnlock, World.setMutex, World.setConnections, World.call, World.headerSet, hwr]
          at hstep <;>
        (try split_ifs at hstep) <;>
        (first
          | (obtain ⟨rfl, rfl⟩ := hstep)
          | (obtain ⟨hr0, rfl, rfl⟩ := hstep)) <;>
        simp only [Goroutine.holdsShared, Goroutine.holdsExclusive, if_true,
          if_false, Bool.false_eq_true, true_implies, false_implies, Nat.add_zero]
          at hS hE hSp hEp <;>
        simp only [Sys.inv, hwr, true_implies, Bool.false_eq_true, false_implies,
          Bool.true_eq_false, and_true, true_and] <;>
        omega
    · rcases pc with _ | _ | ⟨_ | ⟨cur, rest⟩⟩ | _ | ⟨_ | _ | _⟩ | _ <;>
        rcases c with _ | order | ⟨_ | _⟩ | _ <;>
        simp [Goroutine.step, removeStep, RWMutex.Lock, RWMutex.RLock, RWMutex.Unlock,
          RWMutex.RUnlock, World.setMutex, World.setConnections, World.call, World.headerSet, hwr]
          at hstep <;>
        (first
          | (obtain ⟨rfl, rfl⟩ := hstep)
          | (obtain ⟨hr0, rfl, rfl⟩ := hstep)) <;>
        simp only [Goroutine.holdsShared, Goroutine.holdsExclusive, if_true,
          if_false, Bool.false_eq_true, true_implies, false_implies, Nat.add_zero]
          at hS hE hSp hEp <;>
        simp only [Sys.inv, hwr, true_implies, Bool.false_eq_true, false_implies,
          Bool.true_eq_false, and_true, true_and] <;>
        omega

theorem exec_some {s s1 : Sys} {a : Nat × Choice} (h : s.exec a = some s1) :
    ∃ g g1, s.gs[a.1]? = some g ∧ g.step a.2 s.w = some (g1, s1.w)
      ∧ s1.gs = s.gs.set a.1 g1 := by
  unfold Sys.exec at h
  cases hg : s.gs[a.1]? with
  | none => simp [hg] at h
  | some g =>
    rw [hg] at h
    simp only [Option.map_eq_some'] at h
    obtain ⟨⟨g1, w1⟩, h1, rfl⟩ := h
    exact ⟨g, g1, rfl, h1, rfl⟩

theorem inv_exec {s s1 : Sys} {a : Nat × Choice} (h : s.exec a = some s1) (hi : s.inv) :
    s1.inv := by
  obtain ⟨g, g1, hg, hstep, hgs⟩ := exec_some h
  have := inv_step s a.1 a.2 g g1 s1.w hg hstep hi
  rw [← hgs] at this
  exact this

theorem execs_induction (P : Sys → Prop)
    (hP : ∀ (s s1 : Sys) (a : Nat × Choice), s.exec a = some s1 → P s → P s1)
    {s s1 : Sys} {sched : List (Nat × Choice)} (h : s.execs sched = some s1) (h0 : P s) :
    P s1 := by
  induction sched generalizing s with
  | nil =>
    simp only [Sys.execs, Option.some.injEq] at h
    exact h ▸ h0
  | cons a sched ih =>
    simp only [Sys.execs, Option.bind_eq_some] at h
    obtain ⟨s2, h2, h3⟩ := h
    exact ih h3 (hP s s2 a h2 h0)

theorem inv_execs {s s1 : Sys} {sched : List (Nat × Choice)} (h : s.execs sched = some s1)
    (hi : s.inv) : s1.inv :=
  execs_induction Sys.inv (fun _ _ _ h1 h2 => inv_exec h1 h2) h hi

theorem start_countP (p : Goroutine → Bool) (hs : List (ResponseWriter × Request)) (m : Nat)
    (h1 : ∀ rw req, p (.handler rw req .assert) = false) (h2 : p (.reloader .rlock) = false) :
    (Sys.start hs m).gs.countP p = 0 := by
  rw [List.countP_eq_zero]
  intro g hg
  simp only [Sys.start, List.mem_append, List.mem_map, List.mem_replicate] at hg
  rcases hg with ⟨h, _, rfl⟩ | ⟨_, rfl⟩
  · simp [h1]
  · simp [h2]

theorem inv_start (hs : List (ResponseWriter × Request)) (m : Nat) : (Sys.start hs m).inv := by
  refine ⟨?_, ?_, ?_⟩
  · rw [start_countP _ hs m (fun _ _ => rfl) rfl]
    rfl
  · intro h
    cases h
  · intro _
    exact start_countP _ hs m (fun _ _ => rfl) rfl

theorem countP_two_of_get (p : Goroutine → Bool) (gs : List Goroutine) (i j : Nat)
    (gi gj : Goroutine) (hij : i ≠ j) (hi : gs[i]? = some gi) (hj : gs[j]? = some gj)
    (pi : p gi = true) (pj : p gj = true) (g0 : Goroutine) (h0 : p g0 = false) :
    2 ≤ gs.countP p := by
  have h1 := countP_set_eq p gs i gi g0 hi
  have hj2 : (gs.set i g0)[j]? = some gj := by
    rw [List.getElem?_set_ne hij]
    exact hj
  have h2 := countP_pos_of_get p _ j gj hj2 pj
  simp only [pi, h0, if_true, Bool.false_eq_true, if_false] at h1
  omega

theorem writesMap_holdsExclusive (g : Goroutine) (h : g.writesMap = true) :
    g.holdsExclusive = true := by
  rcases g with ⟨rw, req, pc⟩ | pc
  · rcases pc with _ | _ | _ | _ | _ | _ | ⟨_ | _ | _⟩ | _ <;>
      simp [Goroutine.writesMap, Goroutine.holdsExclusive] at h ⊢
  · rcases pc with _ | _ | _ | _ | ⟨_ | _ | _⟩ | _ <;>
      simp [Goroutine.writesMap, Goroutine.holdsExclusive] at h ⊢

theorem readsMap_holdsShared (g : Goroutine) (h : g.readsMap = true) :
    g.holdsShared = true := by
  rcases g with ⟨rw, req, pc⟩ | pc
  · simp [Goroutine.readsMap] at h
  · rcases pc with _ | _ | _ | _ | _ | _ <;>
      simp [Goroutine.readsMap, Goroutine.holdsShared] at h ⊢

theorem no_conflict_of_inv (s : Sys) (hi : s.inv) : ¬ s.conflict := by
  rintro ⟨i, j, gi, gj, hij, hgi, hgj, hwi, hj⟩
  obtain ⟨i1, i2, i3⟩ := hi
  have hei := writesMap_holdsExclusive gi hwi
  have hpos := countP_pos_of_get Goroutine.holdsExclusive s.gs i gi hgi hei
  cases hwr : s.w.b.connectionsMutex.writer with
  | false =>
    have := i3 hwr
    omega
  | true =>
    obtain ⟨h1, h0⟩ := i2 hwr
    rcases hj with hj | hj
    · have := countP_two_of_get Goroutine.holdsExclusive s.gs i j gi gj hij hgi hgj hei
        (writesMap_holdsExclusive gj hj) (.reloader .done) rfl
      omega
    · have := countP_pos_of_get Goroutine.holdsShared s.gs j gj hgj (readsMap_holdsShared gj hj)
      omega

theorem upgrading_stuck (s : Sys) (hi : s.inv) (t : Nat) (cur : Entry) (rest : List Entry)
    (hg : s.gs[t]? = some (.reloader (.remove .lock cur rest))) (c : Choice) :
    s.exec (t, c) = none := by
  have hpos := countP_pos_of_get Goroutine.holdsShared s.gs t _ hg rfl
  have hr : s.w.b.connectionsMutex.readers ≠ 0 := by
    rw [hi.1]
    omega
  cases c <;> simp [Sys.exec, hg, Goroutine.step, removeStep, RWMutex.Lock, hr]

theorem upgrading_forever {s s1 : Sys} {sched : List (Nat × Choice)}
    (h : s.execs sched = some s1) (hi : s.inv) (t : Nat) (cur : Entry) (rest : List Entry)
    (hg : s.gs[t]? = some (.reloader (.remove .lock cur rest))) :
    s1.gs[t]? = some (.reloader (.remove .lock cur rest))
      ∧ 0 < s1.w.b.connectionsMutex.readers := by
  have key : s1.inv ∧ s1.gs[t]? = some (.reloader (.remove .lock cur rest)) := by
    refine execs_induction
      (fun s => s.inv ∧ s.gs[t]? = some (.reloader (.remove .lock cur rest))) ?_ h ⟨hi, hg⟩
    rintro s2 s3 ⟨t2, c⟩ hstep ⟨hi2, hg2⟩
    refine ⟨inv_exec hstep hi2, ?_⟩
    by_cases ht : t2 = t
    · subst ht
      rw [upgrading_stuck s2 hi2 t2 cur rest hg2 c] at hstep
      cases hstep
    · obtain ⟨g, g1, _, _, hgs⟩ := exec_some hstep
      rw [hgs, List.getElem?_set_ne ht]
      exact hg2
  refine ⟨key.2, ?_⟩
  rw [key.1.1]
  exact countP_pos_of_get Goroutine.holdsShared s1.gs t _ key.2 rfl

/-! ### Goroutines: what the map holds -/

theorem step_registry (g g1 : Goroutine) (c : Choice) (w w1 : World)
    (hstep : g.step c w = some (g1, w1)) :
    g1.key = g.key
      ∧ ((w1.b.connections = w.b.connections ∧ g1.entry = g.entry)
        ∨ (∃ rw req, g = .handler rw req .store ∧ g1 = .handler rw req .unlock
            ∧ w1.b.connections
              = w.b.connections.insert req.RemoteAddr { writer := rw.id, flusher := rw.id })
        ∨ (∃ rw req, g = .handler rw req (.remove .delete)
            ∧ g1 = .handler rw req (.remove .unlock)
            ∧ w1.b.connections = w.b.connections.erase req.RemoteAddr)
        ∨ (g.holdsShared = true ∧ g.holdsExclusive = true)) := by
  rcases g with ⟨rw, req, pc⟩ | pc
  · rcases pc with _ | _ | _ | _ | _ | _ | ⟨_ | _ | _⟩ | _ <;>
      rcases c with _ | order | ⟨_ | _⟩ | _ <;>
      simp [Goroutine.step, removeStep, RWMutex.Lock, RWMutex.RLock, RWMutex.Unlock,
        RWMutex.RUnlock, World.setMutex, World.setConnections, World.call, World.headerSet]
        at hstep <;>
      (try split_ifs at hstep) <;>
      (first
        | (obtain ⟨rfl, rfl⟩ := hstep)
        | (obtain ⟨hr0, rfl, rfl⟩ := hstep)) <;>
      simp [Goroutine.key, Goroutine.entry, Goroutine.registered] <;>
      exact Or.inl ⟨_, _, ⟨rfl, rfl⟩, rfl⟩
  · rcases pc with _ | _ | ⟨_ | ⟨cur, rest⟩⟩ | _ | ⟨_ | _ | _⟩ | _ <;>
      rcases c with _ | order | ⟨_ | _⟩ | _ <;>
      simp [Goroutine.step, removeStep, RWMutex.Lock, RWMutex.RLock, RWMutex.Unlock,
        RWMutex.RUnlock, World.setMutex, World.setConnections, World.call, World.headerSet]
        at hstep <;>
      (first
        | (obtain ⟨rfl, rfl⟩ := hstep)
        | (obtain ⟨hr0, rfl, rfl⟩ := hstep)) <;>
      simp [Goroutine.key, Goroutine.entry, Goroutine.holdsShared, Goroutine.holdsExclusive]

theorem entry_key (g : Goroutine) (k : String) (c : connection) (h : g.entry = some (k, c)) :
    g.key = some k := by
  rcases g with ⟨rw, req, pc⟩ | pc
  · simp only [Goroutine.entry] at h
    split at h
    · simp only [Option.some.injEq, Prod.mk.injEq] at h
      simp [Goroutine.key, h.1]
    · cases h
  · cases h

theorem key_unique (gs : List Goroutine) (hd : (gs.filterMap Goroutine.key).Nodup)
    (i j : Nat) (gi gj : Goroutine) (k : String)
    (hi : gs[i]? = some gi) (hj : gs[j]? = some gj)
    (ki : gi.key = some k) (kj : gj.key = some k) : i = j := by
  rw [List.Nodup, List.pairwise_filterMap, List.pairwise_iff_getElem] at hd
  obtain ⟨hil, rfl⟩ := List.getElem?_eq_some_iff.1 hi
  obtain ⟨hjl, rfl⟩ := List.getElem?_eq_some_iff.1 hj
  rcases Nat.lt_trichotomy i j with h | h | h
  · exact absurd rfl (hd i j hil hjl h k ki k kj)
  · exact h
  · exact absurd rfl (hd j i hjl hil h k kj k ki)

theorem map_set_same {β : Type} (f : Goroutine → β) (gs : List Goroutine) (t : Nat)
    (g g1 : Goroutine) (h : gs[t]? = some g) (hf : f g1 = f g) :
    (gs.set t g1).map f = gs.map f := by
  induction gs generalizing t with
  | nil => rfl
  | cons a l ih =>
    cases t with
    | zero =>
      simp only [List.getElem?_cons_zero, Option.some.injEq] at h
      subst h
      simp [hf]
    | succ n =>
      simp only [List.getElem?_cons_succ] at h
      simp [ih n h]

theorem filterMap_key_set (gs : List Goroutine) (t : Nat) (g g1 : Goroutine)
    (h : gs[t]? = some g) (hk : g1.key = g.key) :
    (gs.set t g1).filterMap Goroutine.key = gs.filterMap Goroutine.key := by
  have h1 := List.filterMap_map Goroutine.key id (gs.set t g1)
  have h2 := List.filterMap_map Goroutine.key id gs
  simp only [Function.id_comp] at h1 h2
  rw [← h1, ← h2, map_set_same Goroutine.key gs t g g1 h hk]

theorem own_entry (s : Sys) (ht : s.tracks) (hd : s.keysDistinct) (t : Nat) (g : Goroutine)
    (hg : s.gs[t]? = some g) (k : String) (hk : g.key = some k) (c : connection) :
    s.w.b.connections.lookup k = some c ↔ g.entry = some (k, c) := by
  rw [ht k c]
  constructor
  · rintro ⟨t1, g2, hg2, he⟩
    have := key_unique s.gs hd t1 t g2 g k hg2 hg (entry_key g2 k c he) hk
    subst this
    rw [hg] at hg2
    cases hg2
    exact he
  · intro he
    exact ⟨t, g, hg, he⟩

theorem tracks_set (s : Sys) (ht : s.tracks) (hd : s.keysDistinct) (t : Nat)
    (g g1 : Goroutine) (w1 : World) (hg : s.gs[t]? = some g) (hk : g1.key = g.key)
    (h1 : ∀ k, g.key ≠ some k → w1.b.connections.lookup k = s.w.b.connections.lookup k)
    (h2 : ∀ k c, g.key = some k →
      (w1.b.connections.lookup k = some c ↔ g1.entry = some (k, c))) :
    Sys.tracks { w := w1, gs := s.gs.set t g1 } := by
  have hlt : t < s.gs.length := (List.getElem?_eq_some_iff.1 hg).1
  intro k c
  by_cases hkk : g.key = some k
  · rw [h2 k c hkk]
    constructor
    · intro he
      exact ⟨t, g1, by simp [hlt], he⟩
    · rintro ⟨t1, g2, hg2, he⟩
      by_cases htt : t1 = t
      · subst htt
        simp only [List.getElem?_set_self hlt, Option.some.injEq] at hg2
        subst hg2
        exact he
      · simp only [List.getElem?_set_ne (Ne.symm htt)] at hg2
        exact absurd (key_unique s.gs hd t1 t g2 g k hg2 hg (entry_key g2 k c he) hkk) htt
  · rw [h1 k hkk, ht k c]
    constructor
    · rintro ⟨t1, g2, hg2, he⟩
      have htt : t1 ≠ t := by
        rintro rfl
        rw [hg] at hg2
        cases hg2
        exact hkk (entry_key g k c he)
      exact ⟨t1, g2, by simpa [List.getElem?_set_ne (Ne.symm htt)] using hg2, he⟩
    · rintro ⟨t1, g2, hg2, he⟩
      have htt : t1 ≠ t := by
        rintro rfl
        simp only [List.getElem?_set_self hlt, Option.some.injEq] at hg2
        subst hg2
        exact hkk (hk ▸ entry_key _ k c he)
      exact ⟨t1, g2, by simpa [List.getElem?_set_ne (Ne.symm htt)] using hg2, he⟩

theorem removing_of_both (g : Goroutine) (h1 : g.holdsShared = true)
    (h2 : g.holdsExclusive = true) (h3 : g.removing = false) : False := by
  rcases g with ⟨rw, req, pc⟩ | pc
  · simp [Goroutine.holdsShared] at h1
  · rcases pc with _ | _ | _ | _ | ⟨_ | _ | _⟩ | _ <;>
      simp [Goroutine.holdsExclusive, Goroutine.removing] at h2 h3

theorem step_clean (g g1 : Goroutine) (c : Choice) (w w1 : World)
    (hstep : g.step c w = some (g1, w1)) (h1 : w1.trace.countP failedCall = 0) :
    w.trace.countP failedCall = 0 ∧ (g.removing = false → g1.removing = false) := by
  rcases g with ⟨rw, req, pc⟩ | pc
  · rcases pc with _ | _ | _ | _ | _ | _ | ⟨_ | _ | _⟩ | _ <;>
      rcases c with _ | order | ⟨_ | _⟩ | _ <;>
      simp [Goroutine.step, removeStep, RWMutex.Lock, RWMutex.RLock, RWMutex.Unlock,
        RWMutex.RUnlock, World.setMutex, World.setConnections, World.call, World.headerSet]
        at hstep <;>
      (try split_ifs at hstep) <;>
      (first
        | (obtain ⟨rfl, rfl⟩ := hstep)
        | (obtain ⟨hr0, rfl, rfl⟩ := hstep)) <;>
      simp_all [Goroutine.removing, failedCall] <;>
      assumption
  · rcases pc with _ | _ | ⟨_ | ⟨cur, rest⟩⟩ | _ | ⟨_ | _ | _⟩ | _ <;>
      rcases c with _ | order | ⟨_ | _⟩ | _ <;>
      simp [Goroutine.step, removeStep, RWMutex.Lock, RWMutex.RLock, RWMutex.Unlock,
        RWMutex.RUnlock, World.setMutex, World.setConnections, World.call, World.headerSet]
        at hstep <;>
      (first
        | (obtain ⟨rfl, rfl⟩ := hstep)
        | (obtain ⟨hr0, rfl, rfl⟩ := hstep)) <;>
      simp_all [Goroutine.removing, failedCall] <;>
      assumption

theorem tracks_exec {s s1 : Sys} {a : Nat × Choice} (h : s.exec a = some s1)
    (hx : ∀ g ∈ s.gs, g.removing = false) (hd : s.keysDistinct) (ht : s.tracks) :
    s1.keysDistinct ∧ s1.tracks := by
  obtain ⟨g, g1, hg, hstep, hgs⟩ := exec_some h
  obtain ⟨hk, hcases⟩ := step_registry g g1 a.2 s.w s1.w hstep
  have hd1 : s1.keysDistinct := by
    unfold Sys.keysDistinct
    rw [hgs, filterMap_key_set s.gs a.1 g g1 hg hk]
    exact hd
  refine ⟨hd1, ?_⟩
  have hs1 : s1 = { w := s1.w, gs := s.gs.set a.1 g1 } := by
    cases s1
    simp only at hgs
    simp [hgs]
  rw [hs1]
  apply tracks_set s ht hd a.1 g g1 s1.w hg hk
  · intro k hkk
    rcases hcases with ⟨hc, _⟩ | ⟨rw, req, rfl, rfl, hc⟩ | ⟨rw, req, rfl, rfl, hc⟩ | ⟨h1, h2⟩
    · rw [hc]
    · rw [hc]
      apply AList.lookup_insert_ne
      intro hh
      exact hkk (by simp [Goroutine.key, hh])
    · rw [hc]
      apply AList.lookup_erase_ne
      intro hh
      exact hkk (by simp [Goroutine.key, hh])
    · exact (removing_of_both g h1 h2 (hx g (List.getElem?_mem hg))).elim
  · intro k c hkk
    rcases hcases with ⟨hc, he⟩ | ⟨rw, req, rfl, rfl, hc⟩ | ⟨rw, req, rfl, rfl, hc⟩ | ⟨h1, h2⟩
    · rw [hc, he]
      exact own_entry s ht hd a.1 g hg k hkk c
    · simp only [Goroutine.key, Option.some.injEq] at hkk
      subst hkk
      rw [hc, AList.lookup_insert]
      simp [Goroutine.entry, Goroutine.registered, eq_comm]
    · simp only [Goroutine.key, Option.some.injEq] at hkk
      subst hkk
      rw [hc, AList.lookup_erase]
      simp [Goroutine.entry, Goroutine.registered]
    · exact (removing_of_both g h1 h2 (hx g (List.getElem?_mem hg))).elim

theorem start_key (hs : List (ResponseWriter × Request)) (m : Nat) :
    (Sys.start hs m).gs.filterMap Goroutine.key = hs.map (fun h => h.2.RemoteAddr) := by
  have h1 : List.filterMap Goroutine.key (List.replicate m (Goroutine.reloader .rlock)) = [] := by
    rw [List.filterMap_eq_nil_iff]
    intro g hg
    rw [List.mem_replicate] at hg
    rw [hg.2]
    rfl
  simp only [Sys.start, List.filterMap_append, h1, List.append_nil, List.filterMap_map]
  induction hs with
  | nil => rfl
  | cons h hs ih => simp [Goroutine.key, ih]

theorem start_entry (hs : List (ResponseWriter × Request)) (m : Nat) (g : Goroutine)
    (hg : g ∈ (Sys.start hs m).gs) : g.entry = none := by
  simp only [Sys.start, List.mem_append, List.mem_map, List.mem_replicate] at hg
  rcases hg with ⟨h, _, rfl⟩ | ⟨_, rfl⟩ <;> rfl

theorem start_tracks (hs : List (ResponseWriter × Request)) (m : Nat) :
    (Sys.start hs m).tracks := by
  intro k c
  constructor
  · intro h
    simp [Sys.start, World.init] at h
  · rintro ⟨t, g, hg, he⟩
    rw [start_entry hs m g (List.getElem?_mem hg)] at he
    cases he

theorem reach_tracks {hs : List (ResponseWriter × Request)} {m : Nat}
    {sched : List (Nat × Choice)} {s : Sys}
    (hkeys : (hs.map fun h => h.2.RemoteAddr).Nodup)
    (hrun : (Sys.start hs m).execs sched = some s)
    (hclean : s.w.trace.countP failedCall = 0) :
    s.keysDistinct ∧ s.tracks := by
  have key : s.w.trace.countP failedCall = 0 →
      (∀ g ∈ s.gs, g.removing = false) ∧ s.keysDistinct ∧ s.tracks := by
    refine execs_induction (fun s => s.w.trace.countP failedCall = 0 →
      (∀ g ∈ s.gs, g.removing = false) ∧ s.keysDistinct ∧ s.tracks) ?_ hrun ?_
    · intro s2 s3 a hstep ih h3
      obtain ⟨g, g1, hg, hst, hgs⟩ := exec_some hstep
      obtain ⟨h2, hrem⟩ := step_clean g g1 a.2 s2.w s3.w hst h3
      obtain ⟨hx, hd, ht⟩ := ih h2
      refine ⟨?_, tracks_exec hstep hx hd ht⟩
      intro g2 hg2
      rw [hgs] at hg2
      rcases List.mem_or_eq_of_mem_set hg2 with hm | rfl
      · exact hx g2 hm
      · exact hrem (hx g (List.getElem?_mem hg))
    · intro _
      refine ⟨?_, ?_, start_tracks hs m⟩
      · intro g hg
        simp only [Sys.start, List.mem_append, List.mem_map, List.mem_replicate] at hg
        rcases hg with ⟨h, _, rfl⟩ | ⟨_, rfl⟩ <;> rfl
      · unfold Sys.keysDistinct
        rw [start_key]
        exact hkeys
  exact (key hclean).2

theorem entry_isSome (g : Goroutine) : (g.entry.map Prod.fst).isSome = g.registered := by
  rcases g with ⟨rw, req, pc⟩ | pc
  · simp only [Goroutine.entry]
    split <;> simp_all
  · rfl

theorem size_eq_registered (s : Sys) (hd : s.keysDistinct) (ht : s.tracks) :
    s.w.size = s.gs.countP Goroutine.registered := by
  have hnd : (s.gs.filterMap fun g => g.entry.map Prod.fst).Nodup := by
    unfold Sys.keysDistinct at hd
    rw [List.Nodup, List.pairwise_filterMap] at hd ⊢
    refine hd.imp ?_
    intro a b hab k hk k1 hk1
    simp only [Option.mem_def, Option.map_eq_some', Prod.exists, exists_and_right,
      exists_eq_right] at hk hk1
    obtain ⟨c, hc⟩ := hk
    obtain ⟨c1, hc1⟩ := hk1
    exact hab k (entry_key a k c hc) k1 (entry_key b k1 c1 hc1)
  have hmem : ∀ k, k ∈ s.w.b.connections.keys
      ↔ k ∈ s.gs.filterMap fun g => g.entry.map Prod.fst := by
    intro k
    rw [← AList.mem_keys, ← AList.lookup_isSome, Option.isSome_iff_exists, List.mem_filterMap]
    constructor
    · rintro ⟨c, hc⟩
      obtain ⟨t, g, hg, he⟩ := (ht k c).1 hc
      exact ⟨g, List.getElem?_mem hg, by simp [he]⟩
    · rintro ⟨g, hg, he⟩
      simp only [Option.map_eq_some', Prod.exists, exists_and_right, exists_eq_right] at he
      obtain ⟨c, hc⟩ := he
      obtain ⟨t, ht1⟩ := List.getElem?_of_mem hg
      exact ⟨c, (ht k c).2 ⟨t, g, ht1, hc⟩⟩
  have hperm := (List.perm_ext_iff_of_nodup s.w.b.connections.keys_nodup hnd).2 hmem
  have hlen := hperm.length_eq
  rw [List.length_filterMap_eq_countP] at hlen
  simp only [entry_isSome] at hlen
  rw [← hlen]
  simp [World.size, AList.keys, List.keys]

theorem settled_counts (s : Sys) (hs : s.settled = true) :
    s.gs.countP Goroutine.registered = s.gs.countP Goroutine.subscribed := by
  simp only [Sys.settled, List.all_eq_true] at hs
  apply List.countP_congr
  intro g hg
  have := hs g hg
  rcases g with ⟨rw, req, pc⟩ | pc
  · rcases pc with _ | _ | _ | _ | _ | _ | ⟨_ | _ | _⟩ | _ <;>
      simp [Goroutine.settled, Goroutine.registered, Goroutine.subscribed] at this ⊢
  · simp [Goroutine.registered, Goroutine.subscribed]

/-! ### Goroutines: a goroutine that runs alone does what the method does -/

theorem set_get_self (gs : List Goroutine) (t : Nat) (g g1 : Goroutine)
    (h : gs[t]? = some g) : (gs.set t g1)[t]? = some g1 :=
  List.getElem?_set_self (List.getElem?_eq_some_iff.1 h).1

theorem exec_of_step (s : Sys) (t : Nat) (c : Choice) (g g1 : Goroutine) (w1 : World)
    (hg : s.gs[t]? = some g) (hstep : g.step c s.w = some (g1, w1)) :
    s.exec (t, c) = some { w := w1, gs := s.gs.set t g1 } := by
  simp [Sys.exec, hg, hstep]

theorem subscribe_alone (s : Sys) (t : Nat) (rw : ResponseWriter) (req : Request)
    (hg : s.gs[t]? = some (.handler rw req .assert))
    (hfree : s.w.b.connectionsMutex = RWMutex.unlocked) :
    s.execs (subscribeSchedule t rw)
      = some { w := (handleConnection rw req s.w).world
               gs := s.gs.set t (.handler rw req (if rw.isFlusher then .wait else .done)) } := by
  obtain ⟨hr, hw⟩ := unlocked_iff hfree
  have hlt : t < s.gs.length := (List.getElem?_eq_some_iff.1 hg).1
  cases hf : rw.isFlusher with
  | false =>
    simp [subscribeSchedule, hf, Sys.execs, Sys.exec, hg, Goroutine.step, handleConnection,
      Outcome.world]
  | true =>
    simp [subscribeSchedule, hf, Sys.execs, Sys.exec, hg, Goroutine.step, handleConnection,
      Outcome.world, hlt, RWMutex.Lock, hr, hw, World.setMutex, World.setConnections,
      World.headerSet, RWMutex.Unlock]

theorem cancel_alone (s : Sys) (t : Nat) (rw : ResponseWriter) (req : Request)
    (hg : s.gs[t]? = some (.handler rw req .wait))
    (hfree : s.w.b.connectionsMutex = RWMutex.unlocked) :
    s.execs (cancelSchedule t)
      = some { w := (handleConnectionDone req s.w).world
               gs := s.gs.set t (.handler rw req .done) } := by
  obtain ⟨hr, hw⟩ := unlocked_iff hfree
  have hlt : t < s.gs.length := (List.getElem?_eq_some_iff.1 hg).1
  simp [cancelSchedule, Sys.execs, Sys.exec, hg, Goroutine.step, handleConnectionDone,
    removeConnection, removeStep, Outcome.world, hlt, RWMutex.Lock, hr, hw, World.setMutex,
    World.setConnections, RWMutex.Unlock]

theorem loop_alone (t : Nat) (fails : String → Bool) (order : List Entry) (s : Sys)
    (hg : s.gs[t]? = some (.reloader (.loop order)))
    (hr : 0 < s.w.b.connectionsMutex.readers) :
    s.execs (loopSchedule t fails order)
      = some { w := (match sendReloadLoop fails order s.w with
                     | .returned w1 => w1.setMutex w1.b.connectionsMutex.RUnlock
                     | o => o.world)
               gs := s.gs.set t (.reloader (loopEnd fails order)) } := by
  have hlt : t < s.gs.length := (List.getElem?_eq_some_iff.1 hg).1
  induction order generalizing s with
  | nil =>
    simp [loopSchedule, loopEnd, Sys.execs, Sys.exec, hg, Goroutine.step, sendReloadLoop]
  | cons e rest ih =>
    cases hf : fails e.1 with
    | true =>
      simp [loopSchedule, loopEnd, hf, Sys.execs, Sys.exec, hg, Goroutine.step, sendReloadLoop,
        removeConnection, Lock_held (show 0 < (s.w.call e.2.writer
          (.Write msgBytes true)).b.connectionsMutex.readers from hr), Outcome.world]
    | false =>
      have h1 := exec_of_step s t (.write false) _ _ _ hg
        (show (Goroutine.reloader (.loop (e :: rest))).step (.write false) s.w
          = some (.reloader (.flush e rest), s.w.call e.2.writer (.Write msgBytes false)) from rfl)
      have h2 := exec_of_step (Sys.mk (s.w.call e.2.writer (.Write msgBytes false))
          (s.gs.set t (.reloader (.flush e rest)))) t .run _ _ _
        (set_get_self s.gs t _ _ hg)
        (show (Goroutine.reloader (.flush e rest)).step .run
            (s.w.call e.2.writer (.Write msgBytes false))
          = some (.reloader (.loop rest),
              (s.w.call e.2.writer (.Write msgBytes false)).call e.2.flusher .Flush) from rfl)
      simp only [List.set_set] at h2
      have h3 := ih (Sys.mk ((s.w.call e.2.writer (.Write msgBytes false)).call e.2.flusher .Flush)
          (s.gs.set t (.reloader (.loop rest)))) (set_get_self s.gs t _ _ hg) hr
        (by simpa using hlt)
      simp only [List.set_set] at h3
      simp only [loopSchedule, hf, Bool.false_eq_true, if_false, Sys.execs, h1, h2,
        Option.some_bind, h3, loopEnd, sendReloadLoop]

theorem sendReload_alone (t : Nat) (order : List Entry) (fails : String → Bool) (s : Sys)
    (hg : s.gs[t]? = some (.reloader .rlock))
    (hw : s.w.b.connectionsMutex.writer = false)
    (hperm : order.Perm s.w.b.connections.entries) :
    s.execs (reloadSchedule t order fails)
      = some { w := (sendReload order fails s.w).world
               gs := s.gs.set t (.reloader (loopEnd fails order)) } := by
  have hl : s.w.b.connectionsMutex.RLock
      = some ⟨s.w.b.connectionsMutex.readers + 1, s.w.b.connectionsMutex.writer⟩ := by
    simp [RWMutex.RLock, hw]
  have h1 := exec_of_step s t .run _ _ _ hg
    (show (Goroutine.reloader .rlock).step .run s.w
      = some (.reloader .range, s.w.setMutex
          ⟨s.w.b.connectionsMutex.readers + 1, s.w.b.connectionsMutex.writer⟩) by
      simp [Goroutine.step, hl])
  have h2 := exec_of_step (Sys.mk (s.w.setMutex
        ⟨s.w.b.connectionsMutex.readers + 1, s.w.b.connectionsMutex.writer⟩)
      (s.gs.set t (.reloader .range))) t (.range order) (.reloader .range)
      (.reloader (.loop order)) (s.w.setMutex
        ⟨s.w.b.connectionsMutex.readers + 1, s.w.b.connectionsMutex.writer⟩)
    (set_get_self s.gs t _ _ hg)
    (by simp [Goroutine.step, World.setMutex, hperm])
  simp only [List.set_set] at h2
  have h3 := loop_alone t fails order (Sys.mk (s.w.setMutex
        ⟨s.w.b.connectionsMutex.readers + 1, s.w.b.connectionsMutex.writer⟩)
      (s.gs.set t (.reloader (.loop order)))) (set_get_self s.gs t _ _ hg)
    (by simp [World.setMutex])
  simp only [List.set_set] at h3
  simp only [reloadSchedule, Sys.execs, h1, h2, Option.some_bind, h3, sendReload, hl]
  cases sendReloadLoop fails order (s.w.setMutex
    ⟨s.w.b.connectionsMutex.readers + 1, s.w.b.connectionsMutex.writer⟩) <;> rfl

theorem frozen_exec {s s1 : Sys} {a : Nat × Choice} (h : s.exec a = some s1) (hi : s.inv)
    (hr : 0 < s.w.b.connectionsMutex.readers) : s1.w.b.connections = s.w.b.connections := by
  obtain ⟨g, g1, hg, hstep, _⟩ := exec_some h
  obtain ⟨i1, i2, i3⟩ := hi
  have hex : g.holdsExclusive = true → False := by
    intro he
    have := countP_pos_of_get Goroutine.holdsExclusive s.gs a.1 g hg he
    cases hwr : s.w.b.connectionsMutex.writer with
    | false =>
      have := i3 hwr
      omega
    | true =>
      have := i2 hwr
      omega
  rcases (step_registry g g1 a.2 s.w s1.w hstep).2 with
    ⟨hc, _⟩ | ⟨rw, req, rfl, _, _⟩ | ⟨rw, req, rfl, _, _⟩ | ⟨_, h2⟩
  · exact hc
  · exact (hex rfl).elim
  · exact (hex rfl).elim
  · exact (hex h2).elim

theorem upgrading_freezes {s s1 : Sys} {sched : List (Nat × Choice)}
    (h : s.execs sched = some s1) (hi : s.inv) (t : Nat) (cur : Entry) (rest : List Entry)
    (hg : s.gs[t]? = some (.reloader (.remove .lock cur rest))) :
    s1.w.b.connections = s.w.b.connections := by
  induction sched generalizing s with
  | nil =>
    simp only [Sys.execs, Option.some.injEq] at h
    rw [h]
  | cons a sched ih =>
    simp only [Sys.execs, Option.bind_eq_some] at h
    obtain ⟨s2, h2, h3⟩ := h
    have hstay := @upgrading_forever s s2 [a] (by simp [Sys.execs, h2]) hi t cur rest hg
    have hpos : 0 < s.w.b.connectionsMutex.readers := by
      rw [hi.1]
      exact countP_pos_of_get Goroutine.holdsShared s.gs t _ hg rfl
    rw [ih h3 (inv_exec h2 hi) hstay.1, frozen_exec h2 hi hpos]

/-- C10 (counterexample). Two subscribe requests with the same remote address "A" and
no broadcast: when both handlers have run up to their wait, every goroutine has
settled, both subscribers are waiting, none has had a write failure or a disconnect,
and the map has one entry, that of the second; hence the size property as stated
does not hold. Moreover, with one subscriber and one broadcast, a state is reached
in which the handler has registered its connection and is about to set the headers
of its response writer while the reloader is about to call `Write` on that same
writer, both steps being enabled: the lock of the broker does not order them, so
that the absence of a crash rests on what net/http does when one response writer is
used by two goroutines at once. -/
theorem concurrent_safety_broken :
    (∃ s : Sys,
      (Sys.start [(rwA, reqA), (rwC, reqA)] 0).execs
          (subscribeSchedule 0 rwA ++ subscribeSchedule 1 rwC) = some s
        ∧ s.gs = [.handler rwA reqA .wait, .handler rwC reqA .wait]
        ∧ s.settled = true
        ∧ s.gs.countP Goroutine.subscribed = 2
        ∧ s.w.trace = []
        ∧ s.w.size = 1
        ∧ s.w.b.connections.lookup "A" = some { writer := 2, flusher := 2 })
      ∧ ¬ FinalSizeAsStated
      ∧ ∃ s : Sys,
        (Sys.start [(rwA, reqA)] 1).execs
            [(0, .run), (0, .run), (0, .run), (0, .run), (1, .run),
              (1, .range [⟨"A", { writer := 0, flusher := 0 }⟩])] = some s
          ∧ s.gs = [.handler rwA reqA .headers,
              .reloader (.loop [⟨"A", { writer := 0, flusher := 0 }⟩])]
          ∧ s.w.b.connectionsMutex = { readers := 1, writer := false }
          ∧ s.writerRace
          ∧ (s.exec (0, .run)).isSome = true
          ∧ (s.exec (1, .write false)).isSome = true := by
  refine ⟨⟨_, rfl, rfl, by decide, by decide, rfl, by decide, by decide⟩, ?_,
    ⟨_, rfl, rfl, rfl, ⟨0, 1, rwA, reqA, ⟨"A", { writer := 0, flusher := 0 }⟩, [], rfl, rfl, rfl⟩,
      by decide, by decide⟩⟩
  intro h
  have := h [(rwA, reqA), (rwC, reqA)] 0 (subscribeSchedule 0 rwA ++ subscribeSchedule 1 rwC) _
    rfl (by decide)
  revert this
  decide

/-- C10 (amended). Whatever the subscribe requests, the number of broadcasts and the
interleaving of their goroutines, in every state reached no two goroutines access
the map at the same time with one of them writing it; and when the remote addresses
of the subscribe requests are pairwise distinct and no write has failed, then once
every goroutine has settled (the handlers wait or have returned, the broadcasts
have returned) the size of the map is the number of waiting subscribers. Nothing is
said about runs in which a write fails, nor about crashes. -/
theorem concurrent_safety_distinct_keys (hs : List (ResponseWriter × Request)) (m : Nat)
    (sched : List (Nat × Choice)) (s : Sys)
    (hrun : (Sys.start hs m).execs sched = some s) :
    ¬ s.conflict
      ∧ ((hs.map fun h => h.2.RemoteAddr).Nodup →
        s.w.trace.countP failedCall = 0 →
        s.settled = true →
        s.w.size = s.gs.countP Goroutine.subscribed) := by
  have hi : s.inv := inv_execs hrun (inv_start hs m)
  refine ⟨no_conflict_of_inv s hi, ?_⟩
  intro hkeys hclean hset
  obtain ⟨hd, ht⟩ := reach_tracks hkeys hrun hclean
  exact (size_eq_registered s hd ht).trans (settled_counts s hset)

/-- C10 (amended) at a concrete input: subscribers A and B with distinct remote
addresses and one broadcast in which both writes succeed. -/
theorem concurrent_safety_distinct_keys_witness :
    ∃ s : Sys,
      (Sys.start [(rwA, reqA), (rwB, reqB)] 1).execs
          (subscribeSchedule 0 rwA ++ subscribeSchedule 1 rwB
            ++ reloadSchedule 2 orderBA failsNone) = some s
        ∧ ([(rwA, reqA), (rwB, reqB)].map fun h => h.2.RemoteAddr).Nodup
        ∧ s.w.trace.countP failedCall = 0
        ∧ s.settled = true
        ∧ s.gs.countP Goroutine.subscribed = 2
        ∧ s.w.size = 2
        ∧ ¬ s.conflict :=
  ⟨_, rfl, by decide, by decide, by decide, by decide,
    ((concurrent_safety_distinct_keys [(rwA, reqA), (rwB, reqB)] 1
      (subscribeSchedule 0 rwA ++ subscribeSchedule 1 rwB
        ++ reloadSchedule 2 orderBA failsNone) _ rfl).2 (by decide) (by decide)
        (by decide)).trans (by decide),
    (concurrent_safety_distinct_keys [(rwA, reqA), (rwB, reqB)] 1
      (subscribeSchedule 0 rwA ++ subscribeSchedule 1 rwB
        ++ reloadSchedule 2 orderBA failsNone) _ rfl).1⟩

theorem sendReload_returns_iff (order : List Entry) (fails : String → Bool) (w : World)
    (hw : w.b.connectionsMutex.writer = false) :
    (sendReload order fails w).isReturned = true ↔ ∀ e ∈ order, fails e.1 = false := by
  rw [sendReload_eq fails order w hw]
  cases hff : firstFailing fails order with
  | none =>
    simp only [Outcome.isReturned, true_iff]
    intro e he
    have := List.find?_eq_none.1 hff e he
    simpa using this
  | some e =>
    simp only [Outcome.isReturned, Bool.false_eq_true, false_iff]
    intro h
    have h1 := List.find?_some hff
    have h2 := List.mem_of_find?_eq_some hff
    rw [h e h2] at h1
    cases h1

theorem Server.readers_mono (s s1 : Server) (ev : Event) (hstep : s.step ev = some s1)
    (hw : s.w.b.connectionsMutex.writer = false) :
    s1.w.b.connectionsMutex.writer = false
      ∧ s.w.b.connectionsMutex.readers ≤ s1.w.b.connectionsMutex.readers := by
  cases ev with
  | subscribe rw req =>
    have key : (handleConnection rw req s.w).world.b.connectionsMutex
        = s.w.b.connectionsMutex := by
      cases hf : rw.isFlusher with
      | false => simp [handleConnection, hf, Outcome.world, World.call]
      | true =>
        by_cases hr : s.w.b.connectionsMutex.readers = 0
        · rw [handleConnection_free rw req s.w hf hr hw]
          rfl
        · simp [handleConnection, hf, RWMutex.Lock, hr, Outcome.world]
    simp only [Server.step] at hstep
    cases ho : handleConnection rw req s.w with
    | returned w1 =>
      rw [ho] at hstep key
      cases hstep
      simp only [Outcome.world] at key ⊢
      rw [key]
      exact ⟨hw, Nat.le_refl _⟩
    | suspended w1 =>
      rw [ho] at hstep key
      cases hstep
      simp only [Outcome.world] at key ⊢
      rw [key]
      exact ⟨hw, Nat.le_refl _⟩
    | blocked w1 =>
      rw [ho] at hstep key
      cases hstep
      simp only [Outcome.world] at key ⊢
      rw [key]
      exact ⟨hw, Nat.le_refl _⟩
  | cancel i =>
    simp only [Server.step] at hstep
    cases hp : s.pending[i]? with
    | none => simp [hp] at hstep
    | some hr =>
      rw [hp] at hstep
      cases hstep
      have key : (removeConnection hr.2.RemoteAddr s.w).world.b.connectionsMutex
          = s.w.b.connectionsMutex := by
        by_cases hr0 : s.w.b.connectionsMutex.readers = 0
        · rw [removeConnection_free _ s.w hr0 hw]
          rfl
        · simp [removeConnection, RWMutex.Lock, hr0, Outcome.world]
      simp only [handleConnectionDone]
      rw [key]
      exact ⟨hw, Nat.le_refl _⟩
  | broadcast order fails =>
    simp only [Server.step] at hstep
    split at hstep
    · cases hstep
      simp only [sendReload_eq fails order s.w hw]
      cases firstFailing fails order with
      | none => exact ⟨hw, Nat.le_refl _⟩
      | some e => exact ⟨rfl, Nat.le_succ _⟩
    · cases hstep

/-- C1 (the code at the failing input). Subscribers A and B are registered, the
write to A fails and the write to B would succeed. Whatever the iteration order,
`sendReload` does not return: it is parked in the `Lock()` of `removeConnection`
while it holds the shared lock (the reader count is 1), and A is still in the map.
When `range` yields A first, nothing at all is written to B; when it yields B
first, B gets the message and a flush. The same run goroutine by goroutine: after
the failed write the reloader is at that `Lock()`, and whatever steps the goroutines
take afterwards it stays there and the map keeps A's entry. -/
theorem sendReload_failure_not_isolated :
    orderAB.Perm worldAB.b.connections.entries
      ∧ orderBA.Perm worldAB.b.connections.entries
      ∧ failsA "A" = true ∧ failsA "B" = false
      ∧ worldAB.b.connectionsMutex = RWMutex.unlocked
      ∧ (sendReload orderAB failsA worldAB).isBlocked = true
      ∧ (sendReload orderAB failsA worldAB).world.callsOn 1 = []
      ∧ (sendReload orderAB failsA worldAB).world.trace = [(0, Call.Write msgBytes true)]
      ∧ (sendReload orderAB failsA worldAB).world.b.connections.lookup "A"
          = some { writer := 0, flusher := 0 }
      ∧ (sendReload orderAB failsA worldAB).world.b.connectionsMutex
          = { readers := 1, writer := false }
      ∧ (sendReload orderBA failsA worldAB).isBlocked = true
      ∧ (sendReload orderBA failsA worldAB).world.callsOn 1
          = [Call.Write msgBytes false, Call.Flush]
      ∧ (sendReload orderBA failsA worldAB).world.b.connections.lookup "A"
          = some { writer := 0, flusher := 0 }
      ∧ ∃ s : Sys,
        (Sys.start [(rwA, reqA), (rwB, reqB)] 1).execs
            (subscribeSchedule 0 rwA ++ subscribeSchedule 1 rwB
              ++ reloadSchedule 2 orderAB failsA) = some s
          ∧ s.gs = [.handler rwA reqA .wait, .handler rwB reqB .wait,
              .reloader (.remove .lock ⟨"A", { writer := 0, flusher := 0 }⟩
                [⟨"B", { writer := 1, flusher := 1 }⟩])]
          ∧ s.w.callsOn 1 = []
          ∧ ∀ (sched : List (Nat × Choice)) (s1 : Sys), s.execs sched = some s1 →
            s1.gs[2]? = some (.reloader (.remove .lock ⟨"A", { writer := 0, flusher := 0 }⟩
                [⟨"B", { writer := 1, flusher := 1 }⟩]))
              ∧ s1.w.b.connections.lookup "A" = some { writer := 0, flusher := 0 } := by
  refine ⟨by decide, by decide, by decide, by decide, by decide, by decide, by decide,
    by decide, by decide, by decide, by decide, by decide, by decide, _, rfl, rfl, by decide, ?_⟩
  intro sched s1 h
  have hi := @inv_execs (Sys.start [(rwA, reqA), (rwB, reqB)] 1) _
    (subscribeSchedule 0 rwA ++ subscribeSchedule 1 rwB ++ reloadSchedule 2 orderAB failsA)
    rfl (inv_start _ _)
  refine ⟨(upgrading_forever h hi 2 _ _ rfl).1, ?_⟩
  rw [upgrading_freezes h hi 2 _ _ rfl]
  decide

/-- C2 (the code at the failing input). One subscriber A is registered and the
write to it fails: `sendReload` takes the shared lock, and `removeConnection` then
requests the exclusive lock while the shared lock is still held. In that state
`Lock()` cannot proceed, so `sendReload` is parked there: it does not reach its end
and the deferred `RUnlock` never runs (the reader count stays 1). Goroutine by
goroutine: the reloader is at the `Lock()` of `removeConnection` with the reader
count at 1, it has no step, and whatever steps the other goroutines take it stays
there with the shared lock held. In general, called when nobody holds the lock,
`sendReload` returns exactly when no write fails. -/
theorem sendReload_upgrades_lock :
    [(⟨"A", { writer := 0, flusher := 0 }⟩ : Entry)].Perm worldA.b.connections.entries
      ∧ worldA.b.connectionsMutex = RWMutex.unlocked
      ∧ (sendReload [⟨"A", { writer := 0, flusher := 0 }⟩] failsA worldA).isBlocked = true
      ∧ (sendReload [⟨"A", { writer := 0, flusher := 0 }⟩] failsA worldA).isReturned = false
      ∧ (sendReload [⟨"A", { writer := 0, flusher := 0 }⟩] failsA worldA).world.b.connectionsMutex
          = { readers := 1, writer := false }
      ∧ (sendReload [⟨"A", { writer := 0, flusher := 0 }⟩] failsA
          worldA).world.b.connectionsMutex.Lock = none
      ∧ (∃ s : Sys,
        (Sys.start [(rwA, reqA)] 1).execs
            (subscribeSchedule 0 rwA
              ++ reloadSchedule 1 [⟨"A", { writer := 0, flusher := 0 }⟩] failsA) = some s
          ∧ s.gs = [.handler rwA reqA .wait,
              .reloader (.remove .lock ⟨"A", { writer := 0, flusher := 0 }⟩ [])]
          ∧ s.w.b.connectionsMutex = { readers := 1, writer := false }
          ∧ (∀ c : Choice, s.exec (1, c) = none)
          ∧ ∀ (sched : List (Nat × Choice)) (s1 : Sys), s.execs sched = some s1 →
            s1.gs[1]? = some (.reloader (.remove .lock ⟨"A", { writer := 0, flusher := 0 }⟩ []))
              ∧ 0 < s1.w.b.connectionsMutex.readers)
      ∧ ∀ (order : List Entry) (fails : String → Bool) (w : World),
          w.b.connectionsMutex = RWMutex.unlocked →
          ((sendReload order fails w).isReturned = true ↔ ∀ e ∈ order, fails e.1 = false) := by
  have hi := @inv_execs (Sys.start [(rwA, reqA)] 1) _
    (subscribeSchedule 0 rwA ++ reloadSchedule 1 [⟨"A", { writer := 0, flusher := 0 }⟩] failsA)
    rfl (inv_start _ _)
  refine ⟨by decide, by decide, by decide, by decide, by decide, by decide,
    ⟨_, rfl, rfl, rfl, ?_, ?_⟩, ?_⟩
  · intro c
    exact upgrading_stuck _ hi 1 _ _ rfl c
  · intro sched s1 h
    exact upgrading_forever h hi 1 _ _ rfl
  · intro order fails w hfree
    exact sendReload_returns_iff order fails w (unlocked_iff hfree).2

end Superhot
